import Mathlib

/-!
Verification of the large-scale scheduling input generator
(`Data/generate_input.py`, class `LargeScaleInputGenerator`).

The generator is embedded shallowly:

* Python's `random` module is modelled as an abstract stream of natural
  numbers together with a cursor (`Rng`).  `random.seed(s)` pins the whole
  stream, so a seeded run is a pure function of the seed; the concrete
  Mersenne-Twister stream is abstracted to an arbitrary `Nat → Nat`, and
  every stream-independent property is proved for all streams.  Weighted
  draws (`random.choices`) select some element of their population; with
  the stream abstract this is modelled as an index draw (the weights only
  shape the distribution, which none of the verified properties depend on).
* Operations that can raise in Python (`%` by zero, `max` of an empty
  sequence, out-of-range indexing, dict lookup, division by zero) return
  `Except PyError`.
* Python floats are modelled as rationals; every float computed by the
  generator is a small dyadic rational, so this is exact.
-/

/-- Errors the Python code can raise at runtime. `configError` stands for a
descriptive configuration error (e.g. a `ValueError` with an explanatory
message raised by an explicit guard); the generator never constructs one. -/
inductive PyError where
  | zeroDivision
  | valueError
  | indexError
  | keyError
  | configError (msg : String)
deriving DecidableEq, Repr

/-- Abstract seeded pseudorandom source: an infinite stream of draws plus a
cursor.  `random.seed(seed)` in `LargeScaleInputGenerator.__init__` fixes the
stream once for the whole run; all generator methods consume from it in
program order. -/
structure Rng where
  stream : Nat → Nat
  pos : Nat

/-- Consume one raw draw from the stream. -/
def Rng.next (r : Rng) : Nat × Rng :=
  (r.stream r.pos, { stream := r.stream, pos := r.pos + 1 })

/-- A concrete seeded stream (stands in for the Mersenne Twister; the claims
either hold for every stream or only use determinism of the seeded run). -/
def mkRng (seed : Nat) : Rng :=
  { stream := fun n => (1103515245 * (seed + n) + 12345) % 2147483648, pos := 0 }

/-- `random.randint(lo, hi)`: uniform integer in `[lo, hi]`, both ends
included.  Every call site of the generator has `lo ≤ hi`. -/
def randInt (lo hi : Nat) (r : Rng) : Nat × Rng :=
  let (v, r1) := r.next
  (lo + v % (hi + 1 - lo), r1)

/-- `random.choice(l)` for nonempty `l` (the generator only calls it on
nonempty lists); the default `d` is returned only on an empty population. -/
def choiceD {α : Type} (l : List α) (d : α) (r : Rng) : α × Rng :=
  let (v, r1) := r.next
  (l.getD (v % l.length) d, r1)

/-- `random.choices(l, weights)[0]`: one weighted draw from `l`.  With the
stream abstract, the draw is modelled as an index draw; the weights shape
the distribution only, which no verified property depends on. -/
def choicesD {α : Type} (l : List α) (_weights : List ℚ) (d : α) (r : Rng) : α × Rng :=
  choiceD l d r

/-- `random.random() < num/den`: one stream draw turned into a Bernoulli
outcome. -/
def coin (num den : Nat) (r : Rng) : Bool × Rng :=
  let (v, r1) := r.next
  (v % den < num, r1)

/-- `random.sample(l, k)`: `k` draws without replacement. -/
def sample {α : Type} [Inhabited α] : Nat → List α → Rng → List α × Rng
  | 0, _, r => ([], r)
  | k + 1, l, r =>
    if l.length = 0 then ([], r)
    else
      let (v, r1) := r.next
      let i := v % l.length
      let x := l.getD i default
      let (rest, r2) := sample k (l.eraseIdx i) r1
      (x :: rest, r2)

/-- `range(a, b)` as a list. -/
def pyRange (a b : Nat) : List Nat :=
  (List.range (b - a)).map (fun k => a + k)

/-- Little-endian decimal digits, fuel-based so that the kernel can reduce
it (`fuel ≥ n` always holds at the call below). -/
def digitsLEAux : Nat → Nat → List Nat
  | _, 0 => []
  | 0, _ + 1 => []
  | fuel + 1, n + 1 => ((n + 1) % 10) :: digitsLEAux fuel ((n + 1) / 10)

/-- Little-endian decimal digits of `n` (empty for `0`). -/
def digitsLE (n : Nat) : List Nat := digitsLEAux n n

/-- The character for a decimal digit. -/
def digitChar (d : Nat) : Char := Char.ofNat (48 + d)

/-- Decimal rendering of a natural number, as Python's `str`/`f"{n}"`. -/
def natDecimal (n : Nat) : List Char :=
  if n = 0 then ['0'] else ((digitsLE n).reverse.map digitChar)

/-- `f"{n}"`. -/
def natStr (n : Nat) : String := String.mk (natDecimal n)

/-- Python's `f"{n:0wd}"`: decimal rendering left-padded with zeros to width
`w`. -/
def padZero (w n : Nat) : String :=
  String.mk (List.replicate (w - (natDecimal n).length) '0' ++ natDecimal n)

/-- `max` of a list of naturals via fold (equals Python's `max` on nonempty
input; callers guard emptiness, where Python raises `ValueError`). -/
def listMaxNat (l : List Nat) : Nat := l.foldl max 0

/-- Exact rational addition in a kernel-reducible form (the library's
`Rat.add` is sealed); provably equal to `+` on `ℚ` (`qAdd_eq`). -/
def qAdd (a b : ℚ) : ℚ := mkRat (a.num * b.den + b.num * a.den) (a.den * b.den)

/-- Exact rational multiplication in a kernel-reducible form; provably
equal to `*` on `ℚ` (`qMul_eq`). -/
def qMul (a b : ℚ) : ℚ := mkRat (a.num * b.num) (a.den * b.den)

/-- Exact rational division in a kernel-reducible form; provably equal to
`/` on `ℚ` (`qDiv_eq`). -/
def qDiv (a b : ℚ) : ℚ := Rat.divInt (a.num * b.den) (a.den * b.num)

/-- Sum of a list of rationals via `qAdd`; provably equal to `List.sum`
(`qSum_eq`). -/
def qSum (l : List ℚ) : ℚ := l.foldr qAdd 0

/-- Reads a most-significant-first decimal digit string back into a number;
inverse of `natDecimal`, used to prove the id formats injective. -/
def decodeDec (l : List Char) : Nat :=
  l.foldl (fun acc c => 10 * acc + (c.toNat - 48)) 0

/-! ## Data model (shapes of the generated records) -/

/-- One course record (`generate_courses` output). -/
structure Course where
  id : String
  name : String
  ctype : String
  weekly_hours : ℚ
  instructor_id : String
  expected_enrollment : Nat
  level : String
  department : String
deriving DecidableEq, Repr, Inhabited

/-- One availability entry `{"day": d, "period_index": p}`. -/
structure Slot where
  day : String
  period_index : Nat
deriving DecidableEq, Repr, Inhabited

/-- Transient `_debug` block attached to instructors during generation and
stripped before assembly. -/
structure DebugInfo where
  courses_to_teach : Nat
  hours_to_teach : ℚ
  available_periods : Nat
  required_min_periods : Nat
deriving DecidableEq, Repr, Inhabited

/-- One instructor record (`generate_instructors` output).  `debug = some _`
right after generation; `generate_complete_input` deletes it. -/
structure Instructor where
  id : String
  name : String
  availability : List Slot
  back_to_back_preference : Int
  allow_lunch_teaching : Bool
  department : String
  debug : Option DebugInfo
deriving DecidableEq, Repr, Inhabited

/-- One classroom record (`generate_classrooms` output). -/
structure Classroom where
  id : String
  name : String
  capacity : Nat
deriving DecidableEq, Repr, Inhabited

/-- One student record (`generate_students` output). -/
structure Student where
  id : String
  name : String
  year : String
  enrolled_course_ids : List String
deriving DecidableEq, Repr, Inhabited

/-! ## Class-level constant tables -/

/-- `COURSE_TYPES` with their probabilities. -/
def COURSE_TYPES : List (String × ℚ) :=
  [("full_term", 70/100), ("first_half_term", 15/100), ("second_half_term", 15/100)]

/-- `DEPARTMENTS`. -/
def DEPARTMENTS : List String :=
  ["Computer Science", "Mathematics", "Statistics", "Economics",
   "Management Science & Engineering", "Electrical Engineering",
   "Mechanical Engineering", "Physics", "Chemistry", "Biology"]

/-- `COURSE_LEVELS`: level name, min enrollment, max enrollment,
probability. -/
def COURSE_LEVELS : List (String × Nat × Nat × ℚ) :=
  [("100", 80, 200, 15/100), ("200", 40, 100, 30/100),
   ("300", 20, 60, 35/100), ("400", 10, 30, 20/100)]

/-- `STUDENT_YEARS` with their probabilities. -/
def STUDENT_YEARS : List (String × ℚ) :=
  [("freshman", 25/100), ("sophomore", 25/100), ("junior", 25/100),
   ("senior", 20/100), ("graduate", 5/100)]

/-! ## `_generate_course_names` -/

/-- Course-name tokens of `_generate_course_names`. -/
def name_tokens : List String :=
  ["CS", "MATH", "STAT", "ECON", "MS&E", "EE", "ME", "PHYS", "CHEM", "BIO",
   "ENGR", "DATA", "HIST", "ENGL", "PSYCH", "SOC", "PHIL"]

/-- Descriptive suffixes of `_generate_course_names`. -/
def name_suffixes : List String :=
  ["Introduction", "Advanced", "Theory", "Applications",
   "Seminar", "Lab", "Workshop", "Project"]

/-- Loop body of `_generate_course_names`, producing `n` names in order. -/
def genCourseNamesAux : Nat → Rng → List String × Rng
  | 0, r => ([], r)
  | n + 1, r =>
    let (pfx, r1) := choiceD name_tokens "" r
    let (number, r2) := randInt 100 499 r1
    let (addSuffix, r3) := coin 3 10 r2
    let (nm, r4) :=
      if addSuffix then
        let (sfx, r3b) := choiceD name_suffixes "" r3
        (pfx ++ " " ++ natStr number ++ ": " ++ sfx, r3b)
      else (pfx ++ " " ++ natStr number, r3)
    let (rest, r5) := genCourseNamesAux n r4
    (nm :: rest, r5)

/-- `_generate_course_names`. -/
def generate_course_names (num_courses : Nat) (r : Rng) : List String × Rng :=
  genCourseNamesAux num_courses r

/-! ## `generate_courses` -/

/-- Default course record (used only as `getD` fallback). -/
def dCourse : Course := default

/-- Weekly hours for a course: 1.5 for levels 100/200, otherwise 1.5 with
probability 0.7 else 3.0 (lecture-only vs. lecture-plus-lab). -/
def weeklyHoursDraw (level : String) (r : Rng) : ℚ × Rng :=
  if level = "100" ∨ level = "200" then (qDiv 3 2, r)
  else
    let (lectureOnly, r1) := coin 7 10 r
    (if lectureOnly then qDiv 3 2 else 3, r1)

/-- Loop body of `generate_courses` for course index `i`, with `n` courses
still to produce.  `i % num_instructors` raises `ZeroDivisionError` in
Python when `num_instructors = 0`. -/
def genCoursesFrom (names : List String) (num_instructors : Nat) :
    Nat → Nat → Rng → Except PyError (List Course × Rng)
  | _, 0, r => .ok ([], r)
  | i, n + 1, r =>
    let (level, r1) :=
      choicesD (COURSE_LEVELS.map (fun x => x.1))
        (COURSE_LEVELS.map (fun x => x.2.2.2)) "" r
    let level_info :=
      ((COURSE_LEVELS.filter (fun x => x.1 = level)).getD 0 ("100", 80, 200, 15/100))
    let (enrollment, r2) := randInt level_info.2.1 level_info.2.2.1 r1
    let (course_type, r3) :=
      choicesD (COURSE_TYPES.map (fun x => x.1)) (COURSE_TYPES.map (fun x => x.2)) "" r2
    if num_instructors = 0 then .error .zeroDivision
    else
      let instructor_idx := i % num_instructors
      let (weekly_hours, r4) := weeklyHoursDraw level r3
      let (dept, r5) := choiceD DEPARTMENTS "" r4
      let course : Course :=
        { id := "COURSE" ++ padZero 3 i,
          name := names.getD i "",
          ctype := course_type,
          weekly_hours := weekly_hours,
          instructor_id := "PROF" ++ padZero 3 instructor_idx,
          expected_enrollment := enrollment,
          level := level,
          department := dept }
      match genCoursesFrom names num_instructors (i + 1) n r5 with
      | .error e => .error e
      | .ok (rest, r6) => .ok (course :: rest, r6)

/-- `generate_courses`: the catalog, with names drawn first. -/
def generate_courses (num_courses num_instructors : Nat) (r : Rng) :
    Except PyError (List Course × Rng) :=
  let (names, r1) := generate_course_names num_courses r
  genCoursesFrom names num_instructors 0 num_courses r1

/-! ## `generate_instructors` -/

/-- First names used for instructor records. -/
def first_names : List String :=
  ["Alice", "Bob", "Carol", "David", "Emma", "Frank", "Grace", "Henry",
   "Iris", "Jack", "Karen", "Leo", "Maria", "Nathan", "Olivia", "Peter",
   "Quinn", "Rachel", "Sam", "Tina", "Uma", "Victor", "Wendy", "Xavier",
   "Yuki", "Zoe", "Alex", "Blake", "Casey", "Drew", "Eli", "Fiona"]

/-- Last names used for instructor records. -/
def last_names : List String :=
  ["Anderson", "Brown", "Chen", "Davis", "Evans", "Fischer", "Garcia",
   "Harris", "Ivanov", "Johnson", "Kim", "Lee", "Martinez", "Nguyen",
   "O'Brien", "Patel", "Quinn", "Rodriguez", "Smith", "Taylor", "Ueda",
   "Vargas", "Wang", "Xu", "Yamamoto", "Zhang"]

/-- The five weekdays. -/
def weekdays : List String := ["Mon", "Tue", "Wed", "Thu", "Fri"]

/-- One day's availability window: the `random.random() < 0.2` /
`elif random.random() < 0.2` / full-day cascade. -/
def dayWindow (num_courses_to_teach : Nat) (r : Rng) : List Nat × Rng :=
  let (morning, r1) := coin 1 5 r
  if morning then
    (if num_courses_to_teach ≤ 2 then pyRange 0 12 else pyRange 0 18, r1)
  else
    let (afternoon, r2) := coin 1 5 r1
    if afternoon then
      (if num_courses_to_teach ≤ 2 then pyRange 6 20 else pyRange 0 18, r2)
    else (pyRange 0 20, r2)

/-- Availability accumulated over the sampled available days, in order. -/
def buildAvailability (num_courses_to_teach : Nat) :
    List String → Rng → List Slot × Rng
  | [], r => ([], r)
  | day :: rest, r =>
    let (win, r1) := dayWindow num_courses_to_teach r
    let (tail, r2) := buildAvailability num_courses_to_teach rest r1
    (win.map (fun p => { day := day, period_index := p }) ++ tail, r2)

/-- The top-up `while` loop: while the availability is short of
`min_periods_needed` and unused weekdays remain, pop the next remaining day
and append a full day (periods 0–19). -/
def topUp (min_periods_needed : Nat) : List Slot → List String → List Slot
  | avail, [] => avail
  | avail, d :: rest =>
    if avail.length < min_periods_needed then
      topUp min_periods_needed
        (avail ++ (pyRange 0 20).map (fun p => { day := d, period_index := p })) rest
    else avail

/-- Total weekly hours the catalog assigns to instructor id `iid`
(`total_hours_per_instructor` accumulated over courses). -/
def hoursFor (courses : List Course) (iid : String) : ℚ :=
  qSum ((courses.filter (fun c => c.instructor_id = iid)).map
    (fun c => c.weekly_hours))

/-- Number of catalog courses assigned to instructor id `iid`
(`courses_per_instructor`). -/
def coursesFor (courses : List Course) (iid : String) : Nat :=
  (courses.filter (fun c => c.instructor_id = iid)).length

/-- Loop body of `generate_instructors` for instructor index `i`, with `n`
instructors still to produce. -/
def genInstructorsFrom (courses : List Course) : Nat → Nat → Rng → List Instructor × Rng
  | _, 0, r => ([], r)
  | i, n + 1, r =>
    let (first, r1) := choiceD first_names "" r
    let (last, r2) := choiceD last_names "" r1
    let inst_id := "PROF" ++ padZero 3 i
    let num_courses_to_teach := coursesFor courses inst_id
    let hours_to_teach := hoursFor courses inst_id
    let required_periods := (Rat.floor (qMul hours_to_teach 2)).toNat
    let min_periods_needed := max (required_periods * 3) 30
    let (num_days_available, r3) := choiceD [4, 5] 0 r2
    let (available_days, r4) := sample num_days_available weekdays r3
    let (avail0, r5) := buildAvailability num_courses_to_teach available_days r4
    let remaining_days := weekdays.filter (fun d => ¬ d ∈ available_days)
    let availability := topUp min_periods_needed avail0 remaining_days
    let (b2b_pref, r6) := choicesD [(-1 : Int), 0, 1] [30/100, 50/100, 20/100] 0 r5
    let (allow_lunch, r7) := coin 3 10 r6
    let (dept, r8) := choiceD DEPARTMENTS "" r7
    let inst : Instructor :=
      { id := inst_id,
        name := "Prof. " ++ first ++ " " ++ last,
        availability := availability,
        back_to_back_preference := b2b_pref,
        allow_lunch_teaching := allow_lunch,
        department := dept,
        debug := some
          { courses_to_teach := num_courses_to_teach,
            hours_to_teach := hours_to_teach,
            available_periods := availability.length,
            required_min_periods := min_periods_needed } }
    let (rest, r9) := genInstructorsFrom courses (i + 1) n r8
    (inst :: rest, r9)

/-- `generate_instructors` (the `num_courses` parameter is unused in the
source as well; the per-id aggregation dicts are computed pointwise by
`coursesFor`/`hoursFor`). -/
def generate_instructors (num_instructors _num_courses : Nat)
    (courses : List Course) (r : Rng) : List Instructor × Rng :=
  genInstructorsFrom courses 0 num_instructors r

/-! ## `generate_classrooms` -/

/-- Building names. -/
def buildings : List String :=
  ["Gates", "Huang", "Hewlett", "McCullough", "Littlefield",
   "Meyer", "Jordan", "Skilling", "Mitchell", "Thornton"]

/-- `capacity_distribution`: min capacity, max capacity, weight. -/
def capacity_distribution : List (Nat × Nat × ℚ) :=
  [(20, 30, 10/100), (30, 50, 20/100), (50, 80, 30/100),
   (80, 120, 25/100), (120, 250, 15/100)]

/-- Loop body of `generate_classrooms` for room index `i`, with `n` rooms
still to produce; the first three rooms are forced into the large-capacity
range derived from `max_enrollment`. -/
def genClassroomsFrom (max_enrollment : Nat) : Nat → Nat → Rng → List Classroom × Rng
  | _, 0, r => ([], r)
  | i, n + 1, r =>
    let (building, r1) := choiceD buildings "" r
    let (room_num, r2) := randInt 100 599 r1
    let (capacity, r3) :=
      if i < 3 then
        randInt (max 120 max_enrollment) (max 250 (max_enrollment + 50)) r2
      else
        let (bucket, r2b) :=
          choicesD capacity_distribution
            (capacity_distribution.map (fun t => t.2.2)) (20, 30, 10/100) r2
        randInt bucket.1 bucket.2.1 r2b
    let room : Classroom :=
      { id := "ROOM" ++ padZero 3 i,
        name := building ++ " " ++ natStr room_num,
        capacity := capacity }
    let (rest, r4) := genClassroomsFrom max_enrollment (i + 1) n r3
    (room :: rest, r4)

/-- `generate_classrooms`.  `max(...)` over the enrollments raises
`ValueError` on an empty catalog; the diagnostic print block indexes
`room_capacities[0]`, which raises `IndexError` when no rooms were
generated. -/
def generate_classrooms (num_rooms : Nat) (courses : List Course) (r : Rng) :
    Except PyError (List Classroom × Rng) :=
  if courses.isEmpty then .error .valueError
  else
    let max_enrollment := listMaxNat (courses.map (fun c => c.expected_enrollment))
    let (classrooms, r1) := genClassroomsFrom max_enrollment 0 num_rooms r
    if classrooms.isEmpty then .error .indexError
    else .ok (classrooms, r1)

/-! ## `generate_students` -/

/-- Student first names. -/
def student_names : List String :=
  ["Emma", "Liam", "Olivia", "Noah", "Ava", "Ethan", "Sophia", "Mason",
   "Isabella", "William", "Mia", "James", "Charlotte", "Benjamin", "Amelia",
   "Lucas", "Harper", "Henry", "Evelyn", "Alexander", "Abigail", "Michael",
   "Emily", "Daniel", "Elizabeth", "Matthew", "Sofia", "Jackson", "Avery",
   "Sebastian", "Ella", "Jack", "Scarlett", "Aiden", "Grace", "Owen", "Chloe",
   "Samuel", "Victoria", "David", "Riley", "Joseph", "Aria", "Carter", "Lily"]

/-- The year-keyed level-preference table. -/
def levelProbsFor (year : String) : List (String × ℚ) :=
  if year = "freshman" then
    [("100", 70/100), ("200", 30/100), ("300", 0), ("400", 0)]
  else if year = "sophomore" then
    [("100", 30/100), ("200", 50/100), ("300", 20/100), ("400", 0)]
  else if year = "junior" then
    [("100", 10/100), ("200", 30/100), ("300", 50/100), ("400", 10/100)]
  else if year = "senior" then
    [("100", 0), ("200", 20/100), ("300", 50/100), ("400", 30/100)]
  else
    [("100", 0), ("200", 0), ("300", 30/100), ("400", 70/100)]

/-- The per-student course-selection loop: `num_courses_to_take` rounds over
the student's remaining pool (`available_courses`), breaking when the pool
is empty; the chosen course is removed from the pool. -/
def pickCourses (level_probs : List (String × ℚ)) :
    Nat → List Course → Rng → List String × Rng
  | 0, _, r => ([], r)
  | k + 1, available_courses, r =>
    if available_courses.isEmpty then ([], r)
    else
      let (level, r1) :=
        choicesD (level_probs.map (fun x => x.1)) (level_probs.map (fun x => x.2)) "" r
      let candidates := available_courses.filter (fun c => c.level = level)
      let candidates := if candidates.isEmpty then available_courses else candidates
      let (course, r2) := choiceD candidates dCourse r1
      let (rest, r3) := pickCourses level_probs k (available_courses.erase course) r2
      (course.id :: rest, r3)

/-- Loop body of `generate_students` for student index `i`, with `n`
students still to produce.  (The `courses_by_level` dict computed at the top
of the source function is never read afterwards; the selection loop filters
the remaining pool directly.) -/
def genStudentsFrom (courses : List Course) : Nat → Nat → Rng → List Student × Rng
  | _, 0, r => ([], r)
  | i, n + 1, r =>
    let (year, r1) :=
      choicesD (STUDENT_YEARS.map (fun x => x.1)) (STUDENT_YEARS.map (fun x => x.2)) "" r
    let (num_courses_to_take, r2) :=
      if year = "graduate" then choiceD [2, 3, 4] 0 r1 else choiceD [3, 4, 5] 0 r1
    let (enrolled_courses, r3) := pickCourses (levelProbsFor year) num_courses_to_take courses r2
    let (nm, r4) := choiceD student_names "" r3
    let st : Student :=
      { id := "STU" ++ padZero 4 i,
        name := nm ++ " " ++ natStr i,
        year := year,
        enrolled_course_ids := enrolled_courses }
    let (rest, r5) := genStudentsFrom courses (i + 1) n r4
    (st :: rest, r5)

/-- `generate_students`. -/
def generate_students (num_students : Nat) (courses : List Course) (r : Rng) :
    List Student × Rng :=
  genStudentsFrom courses 0 num_students r

/-! ## `_check_feasibility` -/

/-- Warnings collected by `_check_feasibility`; the human-readable strings
of the source are abstracted to tagged values carrying the same data. -/
inductive Warning where
  | roomCapacity (course_id : String) (enrollment max_capacity : Nat)
  | instructorAvailability (name : String) (required_hours available_hours min_required : ℚ)
  | globalRatio (total_course_hours total_available_hours : ℚ)
  | utilization (value : ℚ)
deriving DecidableEq, Repr

/-- Instructor ids in order of first appearance in the catalog
(the iteration order of the `courses_by_instructor` dict). -/
def firstOccAux : Nat → List String → List String
  | _, [] => []
  | 0, _ :: _ => []
  | fuel + 1, x :: xs => x :: firstOccAux fuel (xs.filter (fun y => ¬ y = x))

/-- Instructor ids in order of first appearance (fuel-based; the fuel
`l.length` always suffices since the filtered tail is no longer). -/
def firstOccurrences (l : List String) : List String := firstOccAux l.length l

/-- Total periods needed per week, `sum(c.weekly_hours * 2 for c in courses)`. -/
def totalRequiredPeriods (courses : List Course) : ℚ :=
  qSum (courses.map (fun c => qMul c.weekly_hours 2))

/-- Check 2 of the verifier: one pass over the instructors that appear in
the catalog, in first-appearance order.  `instructor_dict[inst_id]` raises
`KeyError` when a course references an id with no instructor record. -/
def checkInstructorAvail (courses : List Course) (instructors : List Instructor) :
    List String → Except PyError (List Warning)
  | [] => .ok []
  | iid :: rest =>
    match instructors.find? (fun inst => inst.id = iid) with
    | none => .error .keyError
    | some inst =>
      let available_hours : ℚ := qMul (inst.availability.length : ℚ) (qDiv 1 2)
      let required_hours := hoursFor courses iid
      let min_required_availability := qMul required_hours 3
      match checkInstructorAvail courses instructors rest with
      | .error e => .error e
      | .ok ws =>
        if available_hours < min_required_availability then
          .ok (.instructorAvailability inst.name required_hours available_hours
                min_required_availability :: ws)
        else .ok ws

/-- `_check_feasibility`: the four advisory checks, collecting warnings in
program order.  `max(...)` over the capacities raises `ValueError` on an
empty room list; the final ratio print divides by `total_course_hours`,
raising `ZeroDivisionError` when no issues were found and the catalog is
empty. -/
def check_feasibility (courses : List Course) (instructors : List Instructor)
    (classrooms : List Classroom) (_num_weeks : Nat) :
    Except PyError (List Warning) :=
  if classrooms.isEmpty then .error .valueError
  else
    let max_room_capacity := listMaxNat (classrooms.map (fun c => c.capacity))
    let issues1 : List Warning :=
      courses.filterMap (fun c =>
        if max_room_capacity < c.expected_enrollment then
          some (.roomCapacity c.id c.expected_enrollment max_room_capacity)
        else none)
    match checkInstructorAvail courses instructors
        (firstOccurrences (courses.map (fun c => c.instructor_id))) with
    | .error e => .error e
    | .ok issues2 =>
      let total_course_hours : ℚ := qSum (courses.map (fun c => c.weekly_hours))
      let total_available_hours : ℚ :=
        qSum (instructors.map (fun inst =>
          qMul (inst.availability.length : ℚ) (qDiv 1 2)))
      let issues3 : List Warning :=
        if total_available_hours < qMul total_course_hours 3 then
          [.globalRatio total_course_hours total_available_hours]
        else []
      let slots_per_week : Nat := 5 * 24
      let total_periods_needed := totalRequiredPeriods courses
      let utilization :=
        qDiv total_periods_needed (qMul (slots_per_week : ℚ) (classrooms.length : ℚ))
      let issues4 : List Warning :=
        if qDiv 1 2 < utilization then [.utilization utilization] else []
      let issues := issues1 ++ issues2 ++ issues3 ++ issues4
      if issues.isEmpty then
        if total_course_hours = 0 then .error .zeroDivision else .ok issues
      else .ok issues

/-! ## `generate_complete_input` -/

/-- The `term_config` block.  The semester dates are modelled as day offsets
from 2025-01-06 (the fixed `start_date`); `strftime` renders the offset as a
fixed injective date string, which no claim inspects. -/
structure TermConfig where
  num_weeks : Nat
  days : List String
  period_length_minutes : Nat
  day_start_time : String
  day_end_time : String
  lunch_start_time : String
  lunch_end_time : String
  semester_start_date : Int
  semester_end_date : Int
deriving DecidableEq, Repr, Inhabited

/-- The `conflict_weights` block. -/
structure ConflictWeights where
  global_student_conflict_weight : ℚ
  instructor_compactness_weight : ℚ
  preferred_time_slots_weight : ℚ
deriving DecidableEq, Repr, Inhabited

/-- The `metadata.statistics` block. -/
structure Statistics where
  num_courses : Nat
  num_instructors : Nat
  num_rooms : Nat
  num_students : Nat
  total_enrollments : Nat
  avg_courses_per_student : ℚ
  potential_conflicts : Nat
deriving DecidableEq, Repr, Inhabited

/-- The `metadata` block; `generated_at` is `datetime.now().isoformat()`,
an input from the environment, not from the seeded stream. -/
structure Metadata where
  generated_at : String
  generator_version : String
  description : String
  feasibility_checked : Bool
  statistics : Statistics
deriving DecidableEq, Repr, Inhabited

/-- The assembled instance document. -/
structure InputData where
  term_config : TermConfig
  classrooms : List Classroom
  instructors : List Instructor
  courses : List Course
  students : List Student
  conflict_weights : ConflictWeights
  metadata : Metadata
deriving DecidableEq, Repr, Inhabited

/-- `generate_complete_input`: generation in dependency order, the advisory
feasibility pass, statistics, debug-field strip, and assembly.  `now` is the
wall-clock timestamp read by `datetime.now()`.  The
`avg_courses_per_student` statistic divides by `num_students`, raising
`ZeroDivisionError` when it is zero. -/
def generate_complete_input (num_courses num_instructors num_rooms num_students
    num_weeks : Nat) (now : String) (r : Rng) : Except PyError InputData :=
  match generate_courses num_courses num_instructors r with
  | .error e => .error e
  | .ok (courses, r1) =>
    let (instructors, r2) := generate_instructors num_instructors num_courses courses r1
    match generate_classrooms num_rooms courses r2 with
    | .error e => .error e
    | .ok (classrooms, r3) =>
      let (students, _r4) := generate_students num_students courses r3
      match check_feasibility courses instructors classrooms num_weeks with
      | .error e => .error e
      | .ok _warnings =>
        let total_enrollment : Nat :=
          (students.map (fun s => s.enrolled_course_ids.length)).sum
        if num_students = 0 then .error .zeroDivision
        else
          let avg_courses_per_student : ℚ :=
            qDiv (total_enrollment : ℚ) (num_students : ℚ)
          let conflict_count :=
            (students.map (fun s =>
              s.enrolled_course_ids.length * (s.enrolled_course_ids.length - 1) / 2)).sum
          let instructors := instructors.map (fun inst => { inst with debug := none })
          .ok
            { term_config :=
                { num_weeks := num_weeks,
                  days := weekdays,
                  period_length_minutes := 30,
                  day_start_time := "08:00",
                  day_end_time := "20:00",
                  lunch_start_time := "12:00",
                  lunch_end_time := "13:00",
                  semester_start_date := 0,
                  semester_end_date := 7 * (num_weeks : Int) - 1 },
              classrooms := classrooms,
              instructors := instructors,
              courses := courses,
              students := students,
              conflict_weights :=
                { global_student_conflict_weight := 1,
                  instructor_compactness_weight := 1,
                  preferred_time_slots_weight := 1 },
              metadata :=
                { generated_at := now,
                  generator_version := "1.0",
                  description :=
                    "Large-scale scheduling input: " ++ natStr num_courses ++
                    " courses, " ++ natStr num_instructors ++ " instructors, " ++
                    natStr num_students ++ " students",
                  feasibility_checked := true,
                  statistics :=
                    { num_courses := num_courses,
                      num_instructors := num_instructors,
                      num_rooms := num_rooms,
                      num_students := num_students,
                      total_enrollments := total_enrollment,
                      avg_courses_per_student := avg_courses_per_student,
                      potential_conflicts := conflict_count } } }

/-! ## Projections and basic facts about the primitives -/

instance : Inhabited Rng := ⟨{ stream := fun _ => 0, pos := 0 }⟩

/-- The all-zero stream, used to exercise the generators on a concrete run. -/
def rng0 : Rng := { stream := fun _ => 0, pos := 0 }

/-- Whether a modelled run finished without raising. -/
def exOk {α : Type} : Except PyError α → Bool
  | .ok _ => true
  | .error _ => false

/-- The value of a run that finished without raising (`default` on error;
statements pair it with `exOk`). -/
def exVal {α : Type} [Inhabited α] : Except PyError α → α
  | .ok a => a
  | .error _ => default

/-- Default records used as `getD` fallbacks in theorem statements. -/
def dInstructor : Instructor := default

/-- Default student record used as a `getD` fallback. -/
def dStudent : Student := default

/-- The catalog produced by a non-raising `generate_courses` run. -/
def generatedCourses (nc ni : Nat) (r : Rng) : List Course :=
  (exVal (generate_courses nc ni r)).1

/-- The instructor record at index `j` of a `generate_instructors` run. -/
def nthInstructor (ni nc : Nat) (courses : List Course) (r : Rng) (j : Nat) : Instructor :=
  (generate_instructors ni nc courses r).1.getD j dInstructor

/-- A document with its wall-clock stamp overridden, used to compare two
runs up to `metadata.generated_at`. -/
def withGeneratedAt (doc : InputData) (t : String) : InputData :=
  { doc with metadata := { doc.metadata with generated_at := t } }

theorem qAdd_eq (a b : ℚ) : qAdd a b = a + b := (Rat.add_def' a b).symm

theorem qMul_eq (a b : ℚ) : qMul a b = a * b := (Rat.mul_eq_mkRat a b).symm

theorem qDiv_eq (a b : ℚ) : qDiv a b = a / b := (Rat.div_def' a b).symm

theorem qSum_eq : ∀ l : List ℚ, qSum l = l.sum := by
  intro l
  induction l with
  | nil => rfl
  | cons x xs ih =>
    show qAdd x (qSum xs) = (x :: xs).sum
    rw [qAdd_eq, ih, List.sum_cons]

theorem choiceD_fst_mem {α : Type} {l : List α} (h : l ≠ []) (d : α) (r : Rng) :
    (choiceD l d r).1 ∈ l := by
  have hlen : 0 < l.length := List.length_pos.mpr h
  have hidx : (r.next.1) % l.length < l.length := Nat.mod_lt _ hlen
  show l.getD (r.next.1 % l.length) d ∈ l
  rw [List.getD_eq_getElem l d hidx]
  exact List.getElem_mem hidx

theorem choicesD_fst_mem {α : Type} {l : List α} (h : l ≠ []) (w : List ℚ) (d : α)
    (r : Rng) : (choicesD l w d r).1 ∈ l :=
  choiceD_fst_mem h d r

theorem randInt_fst_le {lo hi : Nat} (h : lo ≤ hi) (r : Rng) :
    lo ≤ (randInt lo hi r).1 ∧ (randInt lo hi r).1 ≤ hi := by
  constructor
  · exact Nat.le_add_right _ _
  · show lo + r.next.1 % (hi + 1 - lo) ≤ hi
    have hpos : 0 < hi + 1 - lo := by omega
    have := Nat.mod_lt r.next.1 hpos
    omega

theorem getD_mem {α : Type} {l : List α} {i : Nat} (h : i < l.length) (d : α) :
    l.getD i d ∈ l := by
  rw [List.getD_eq_getElem l d h]
  exact List.getElem_mem h

theorem getD_not_mem_eraseIdx {α : Type} :
    ∀ (l : List α) (i : Nat) (d : α), i < l.length → l.Nodup →
      l.getD i d ∉ l.eraseIdx i := by
  intro l
  induction l with
  | nil => intro i d h; simp at h
  | cons x xs ih =>
    intro i d h hnd
    match i with
    | 0 =>
      simpa using (List.nodup_cons.mp hnd).1
    | i + 1 =>
      have hi : i < xs.length := by simpa using h
      have hx : x ∉ xs := (List.nodup_cons.mp hnd).1
      have hne : xs.getD i d ≠ x := by
        intro he
        exact hx (he ▸ getD_mem hi d)
      have htail := ih i d hi (List.nodup_cons.mp hnd).2
      simp only [List.eraseIdx_cons_succ, List.mem_cons, not_or]
      constructor
      · simpa using hne
      · simpa using htail

theorem sample_fst_subset {α : Type} [Inhabited α] :
    ∀ (k : Nat) (l : List α) (r : Rng), ∀ x ∈ (sample k l r).1, x ∈ l := by
  intro k
  induction k with
  | zero => intro l r x hx; simp [sample] at hx
  | succ k ih =>
    intro l r x hx
    by_cases hl : l.length = 0
    · simp [sample, hl] at hx
    · simp only [sample, hl, if_false] at hx
      rcases List.mem_cons.mp hx with h | h
      · subst h
        exact getD_mem (Nat.mod_lt _ (Nat.pos_of_ne_zero hl)) default
      · exact (List.eraseIdx_sublist l _).subset (ih _ _ x h)

theorem sample_fst_nodup {α : Type} [Inhabited α] :
    ∀ (k : Nat) (l : List α) (r : Rng), l.Nodup → ((sample k l r).1).Nodup := by
  intro k
  induction k with
  | zero => intro l r _; simp [sample]
  | succ k ih =>
    intro l r hnd
    by_cases hl : l.length = 0
    · simp [sample, hl]
    · simp only [sample, hl, if_false]
      refine List.nodup_cons.mpr ⟨?_, ih _ _ ((List.eraseIdx_sublist l _).nodup hnd)⟩
      intro hmem
      exact getD_not_mem_eraseIdx l _ default (Nat.mod_lt _ (Nat.pos_of_ne_zero hl)) hnd
        ((sample_fst_subset k _ _ _ hmem))

theorem pyRange_lt {a b : Nat} : ∀ x ∈ pyRange a b, x < b := by
  intro x hx
  simp only [pyRange, List.mem_map, List.mem_range] at hx
  obtain ⟨k, hk, rfl⟩ := hx
  omega

theorem pyRange_nodup {a b : Nat} : (pyRange a b).Nodup := by
  refine List.Nodup.map ?_ (List.nodup_range _)
  intro u v huv
  exact Nat.add_left_cancel huv

theorem pyRange_ne_nil {a b : Nat} (h : a < b) : pyRange a b ≠ [] := by
  simp only [pyRange, ne_eq, List.map_eq_nil_iff, List.range_eq_nil]
  omega

/-- Projection-style unfolding of one `genCoursesFrom` step (definitionally
equal to the pattern-matching form via structure eta). -/
theorem genCoursesFrom_succ (names : List String) (ni i n : Nat) (r : Rng) :
    genCoursesFrom names ni i (n + 1) r =
      (let c1 := choicesD (COURSE_LEVELS.map (fun x => x.1))
          (COURSE_LEVELS.map (fun x => x.2.2.2)) "" r
       let level := c1.1
       let level_info :=
         ((COURSE_LEVELS.filter (fun x => x.1 = level)).getD 0 ("100", 80, 200, 15/100))
       let c2 := randInt level_info.2.1 level_info.2.2.1 c1.2
       let c3 := choicesD (COURSE_TYPES.map (fun x => x.1))
         (COURSE_TYPES.map (fun x => x.2)) "" c2.2
       if ni = 0 then .error .zeroDivision
       else
         let wh := weeklyHoursDraw level c3.2
         let c5 := choiceD DEPARTMENTS "" wh.2
         let course : Course :=
           { id := "COURSE" ++ padZero 3 i,
             name := names.getD i "",
             ctype := c3.1,
             weekly_hours := wh.1,
             instructor_id := "PROF" ++ padZero 3 (i % ni),
             expected_enrollment := c2.1,
             level := level,
             department := c5.1 }
         match genCoursesFrom names ni (i + 1) n c5.2 with
         | .error e => .error e
         | .ok (rest, r6) => .ok (course :: rest, r6)) := rfl

/-- The weekly-hours draw yields 1.5 or 3.0. -/
theorem weeklyHoursDraw_mem (level : String) (r : Rng) :
    (weeklyHoursDraw level r).1 = 3/2 ∨ (weeklyHoursDraw level r).1 = 3 := by
  unfold weeklyHoursDraw
  split
  · exact Or.inl (qDiv_eq 3 2)
  · dsimp only
    split
    · exact Or.inl (qDiv_eq 3 2)
    · exact Or.inr rfl

/-- One course-loop step produces a head record with the round-robin
instructor id, the padded course id, and weekly hours 1.5 or 3.0, and then
continues the recursion from some stream state. -/
theorem genCoursesFrom_step (names : List String) {ni : Nat} (i n : Nat) (r : Rng)
    (hni : ¬ ni = 0) :
    ∃ (c : Course) (r5 : Rng),
      genCoursesFrom names ni i (n + 1) r =
        (match genCoursesFrom names ni (i + 1) n r5 with
         | .error e => .error e
         | .ok (rest, r6) => .ok (c :: rest, r6)) ∧
      c.instructor_id = "PROF" ++ padZero 3 (i % ni) ∧
      c.id = "COURSE" ++ padZero 3 i ∧
      (c.weekly_hours = 3/2 ∨ c.weekly_hours = 3) := by
  rw [genCoursesFrom_succ, if_neg hni]
  refine ⟨_, _, rfl, rfl, rfl, ?_⟩
  exact weeklyHoursDraw_mem _ _

/-- Indexed specification of the course loop: with at least one instructor
it never raises, produces exactly the requested number of records, and the
record at offset `j` carries the round-robin instructor id, the zero-padded
course id, and weekly hours 1.5 or 3.0. -/
theorem genCoursesFrom_ok (names : List String) (ni : Nat) (hni : ¬ ni = 0) :
    ∀ (n i : Nat) (r : Rng),
      ∃ l r2, genCoursesFrom names ni i n r = .ok (l, r2) ∧ l.length = n ∧
        ∀ j, j < n →
          ((l.getD j dCourse).instructor_id = "PROF" ++ padZero 3 ((i + j) % ni) ∧
           (l.getD j dCourse).id = "COURSE" ++ padZero 3 (i + j) ∧
           ((l.getD j dCourse).weekly_hours = 3/2 ∨ (l.getD j dCourse).weekly_hours = 3)) := by
  intro n
  induction n with
  | zero =>
    intro i r
    exact ⟨[], r, rfl, rfl, fun j hj => absurd hj (by omega)⟩
  | succ n ih =>
    intro i r
    obtain ⟨c, r5, heq, hinst, hid, hwh⟩ := genCoursesFrom_step names i n r hni
    obtain ⟨rest, r2, hrec, hlen, hspec⟩ := ih (i + 1) r5
    rw [heq, hrec]
    refine ⟨c :: rest, r2, rfl, by simp [hlen], ?_⟩
    intro j hj
    match j with
    | 0 =>
      refine ⟨?_, ?_, ?_⟩
      · simpa using hinst
      · simpa using hid
      · simpa using hwh
    | j + 1 =>
      have hj2 : j < n := by omega
      have := hspec j hj2
      have harith : i + 1 + j = i + (j + 1) := by omega
      rw [harith] at this
      simpa using this

/-- C6 (code_bug record): at `num_courses = 1`, `num_instructors = 0` the
course generator stops at the unguarded `i % num_instructors` with a bare
division-by-zero fault; it does not produce a catalog and it does not raise
a descriptive configuration error. -/
theorem zero_instructors_division_fault :
    generate_courses 1 0 rng0 = .error PyError.zeroDivision ∧
    ∀ msg, generate_courses 1 0 rng0 ≠ .error (PyError.configError msg) := by
  constructor
  · rfl
  · intro msg h
    simp [show generate_courses 1 0 rng0 = .error PyError.zeroDivision from rfl] at h

/-- C7: with at least one instructor, course generation succeeds and the
course at index `i` is assigned instructor `PROF` followed by
`i % num_instructors` zero-padded to width 3 (round-robin). -/
theorem course_round_robin_assignment (r : Rng) (nc ni i : Nat)
    (hni : 1 ≤ ni) (hi : i < nc) :
    exOk (generate_courses nc ni r) = true ∧
    ((exVal (generate_courses nc ni r)).1.getD i dCourse).instructor_id =
      "PROF" ++ padZero 3 (i % ni) := by
  have hunfold : generate_courses nc ni r =
      genCoursesFrom (generate_course_names nc r).1 ni 0 nc
        (generate_course_names nc r).2 := rfl
  obtain ⟨l, r2, heq, hlen, hspec⟩ :=
    genCoursesFrom_ok (generate_course_names nc r).1 ni (by omega) nc 0
      (generate_course_names nc r).2
  rw [hunfold, heq]
  refine ⟨rfl, ?_⟩
  have := (hspec i hi).1
  simpa using this

/-- Witness for C7 at seed-stream `rng0`, one course, one instructor. -/
theorem course_round_robin_assignment_witness :
    1 ≤ 1 ∧ 0 < 1 ∧
    (exOk (generate_courses 1 1 rng0) = true ∧
     ((exVal (generate_courses 1 1 rng0)).1.getD 0 dCourse).instructor_id =
       "PROF" ++ padZero 3 (0 % 1)) :=
  ⟨Nat.le_refl 1, Nat.lt_irrefl 0 |> fun _ => Nat.zero_lt_one,
   course_round_robin_assignment rng0 1 1 0 (Nat.le_refl 1) Nat.zero_lt_one⟩

/-! ## Availability construction: windows, day loop, top-up -/

/-- The availability window of one day is one of the four ranges of the
morning/afternoon/full-day cascade. -/
theorem dayWindow_fst_cases (nct : Nat) (r : Rng) :
    (dayWindow nct r).1 = pyRange 0 12 ∨ (dayWindow nct r).1 = pyRange 0 18 ∨
    (dayWindow nct r).1 = pyRange 6 20 ∨ (dayWindow nct r).1 = pyRange 0 20 := by
  have h1 : dayWindow nct r =
      (if (coin 1 5 r).1 then
        (if nct ≤ 2 then pyRange 0 12 else pyRange 0 18, (coin 1 5 r).2)
      else
        if (coin 1 5 (coin 1 5 r).2).1 then
          (if nct ≤ 2 then pyRange 6 20 else pyRange 0 18, (coin 1 5 (coin 1 5 r).2).2)
        else (pyRange 0 20, (coin 1 5 (coin 1 5 r).2).2)) := rfl
  rw [h1]
  split
  · split
    · exact Or.inl rfl
    · exact Or.inr (Or.inl rfl)
  · split
    · split
      · exact Or.inr (Or.inr (Or.inl rfl))
      · exact Or.inr (Or.inl rfl)
    · exact Or.inr (Or.inr (Or.inr rfl))

/-- Each availability window is nonempty, duplicate-free, and within
periods 0–19. -/
theorem dayWindow_props (nct : Nat) (r : Rng) :
    (dayWindow nct r).1 ≠ [] ∧ (dayWindow nct r).1.Nodup ∧
    ∀ p ∈ (dayWindow nct r).1, p < 20 := by
  rcases dayWindow_fst_cases nct r with h | h | h | h <;> rw [h] <;>
    exact ⟨by decide, pyRange_nodup, fun p hp => by have := pyRange_lt p hp; omega⟩

/-- The day loop produces a duplicate-free availability whose slots lie on
the sampled days with periods below 20, and covers every sampled day. -/
theorem buildAvailability_props (nct : Nat) :
    ∀ (days : List String) (r : Rng), days.Nodup →
      ((buildAvailability nct days r).1.Nodup ∧
       (∀ s ∈ (buildAvailability nct days r).1, s.day ∈ days ∧ s.period_index < 20) ∧
       (∀ d ∈ days, ∃ s ∈ (buildAvailability nct days r).1, s.day = d)) := by
  intro days
  induction days with
  | nil =>
    intro r _
    exact ⟨List.nodup_nil, by simp [buildAvailability], by simp⟩
  | cons day rest ih =>
    intro r hnd
    obtain ⟨hday, hrest⟩ := List.nodup_cons.mp hnd
    obtain ⟨ihnd, ihmem, ihcov⟩ := ih (dayWindow nct r).2 hrest
    obtain ⟨hwne, hwnd, hwlt⟩ := dayWindow_props nct r
    have hunfold : buildAvailability nct (day :: rest) r =
        ((dayWindow nct r).1.map (fun p => { day := day, period_index := p }) ++
          (buildAvailability nct rest (dayWindow nct r).2).1,
         (buildAvailability nct rest (dayWindow nct r).2).2) := rfl
    rw [hunfold]
    dsimp only
    refine ⟨?_, ?_, ?_⟩
    · rw [List.nodup_append]
      refine ⟨?_, ihnd, ?_⟩
      · refine List.Nodup.map ?_ hwnd
        intro p q hpq
        simpa using congrArg Slot.period_index hpq
      · intro s hs1 hs2
        obtain ⟨p, hp, rfl⟩ := List.mem_map.mp hs1
        have := (ihmem _ hs2).1
        exact hday this
    · intro s hs
      rcases List.mem_append.mp hs with h | h
      · obtain ⟨p, hp, rfl⟩ := List.mem_map.mp h
        exact ⟨List.mem_cons_self _ _, hwlt p hp⟩
      · obtain ⟨h1, h2⟩ := ihmem s h
        exact ⟨List.mem_cons_of_mem _ h1, h2⟩
    · intro d hd
      rcases List.mem_cons.mp hd with rfl | hd2
      · obtain ⟨p, hp⟩ := List.exists_mem_of_ne_nil _ hwne
        refine ⟨{ day := d, period_index := p }, ?_, rfl⟩
        exact List.mem_append_left _ (List.mem_map.mpr ⟨p, hp, rfl⟩)
      · obtain ⟨s, hs, hsd⟩ := ihcov d hd2
        exact ⟨s, List.mem_append_right _ hs, hsd⟩

/-- The top-up loop preserves duplicate-freeness, only adds full days taken
from the remaining-day list, keeps everything already present, and
terminates either at the requested size or with every remaining day
covered. -/
theorem topUp_props :
    ∀ (rem : List String) (avail : List Slot) (minp : Nat),
      avail.Nodup → rem.Nodup → (∀ s ∈ avail, ¬ s.day ∈ rem) →
      ((topUp minp avail rem).Nodup ∧
       (∀ s ∈ topUp minp avail rem, s ∈ avail ∨ (s.day ∈ rem ∧ s.period_index < 20)) ∧
       (minp ≤ (topUp minp avail rem).length ∨
         ∀ d ∈ rem, ∃ s ∈ topUp minp avail rem, s.day = d) ∧
       (∀ s ∈ avail, s ∈ topUp minp avail rem)) := by
  intro rem
  induction rem with
  | nil =>
    intro avail minp hnd _ _
    exact ⟨hnd, fun s hs => Or.inl hs, Or.inr (by simp), fun s hs => hs⟩
  | cons d rest ih =>
    intro avail minp hnd hndrem hdisj
    obtain ⟨hdmem, hndrest⟩ := List.nodup_cons.mp hndrem
    by_cases hlen : avail.length < minp
    · have hunfold : topUp minp avail (d :: rest) =
          topUp minp
            (avail ++ (pyRange 0 20).map (fun p => { day := d, period_index := p }))
            rest := by
        simp only [topUp]
        rw [if_pos hlen]
      have hblocknd : ((pyRange 0 20).map
          (fun p => ({ day := d, period_index := p } : Slot))).Nodup := by
        refine List.Nodup.map ?_ pyRange_nodup
        intro p q hpq
        simpa using congrArg Slot.period_index hpq
      have hnd' : (avail ++ (pyRange 0 20).map
          (fun p => ({ day := d, period_index := p } : Slot))).Nodup := by
        rw [List.nodup_append]
        refine ⟨hnd, hblocknd, ?_⟩
        intro s hs1 hs2
        obtain ⟨p, hp, rfl⟩ := List.mem_map.mp hs2
        exact hdisj _ hs1 (List.mem_cons_self _ _)
      have hdisj' : ∀ s ∈ avail ++ (pyRange 0 20).map
          (fun p => ({ day := d, period_index := p } : Slot)), ¬ s.day ∈ rest := by
        intro s hs
        rcases List.mem_append.mp hs with h | h
        · intro hmem
          exact hdisj s h (List.mem_cons_of_mem _ hmem)
        · obtain ⟨p, hp, rfl⟩ := List.mem_map.mp h
          exact hdmem
      obtain ⟨ind, imem, icov, iincl⟩ := ih _ minp hnd' hndrest hdisj'
      rw [hunfold]
      refine ⟨ind, ?_, ?_, ?_⟩
      · intro s hs
        rcases imem s hs with h | h
        · rcases List.mem_append.mp h with h2 | h2
          · exact Or.inl h2
          · obtain ⟨p, hp, rfl⟩ := List.mem_map.mp h2
            exact Or.inr ⟨List.mem_cons_self _ _, pyRange_lt p hp⟩
        · exact Or.inr ⟨List.mem_cons_of_mem _ h.1, h.2⟩
      · rcases icov with h | h
        · exact Or.inl h
        · refine Or.inr ?_
          intro d0 hd0
          rcases List.mem_cons.mp hd0 with rfl | hd2
          · refine ⟨{ day := d0, period_index := 0 }, ?_, rfl⟩
            refine iincl _ (List.mem_append_right _ ?_)
            exact List.mem_map.mpr ⟨0, by decide, rfl⟩
          · exact h d0 hd2
      · intro s hs
        exact iincl _ (List.mem_append_left _ hs)
    · have hunfold : topUp minp avail (d :: rest) = avail := by
        simp only [topUp]
        rw [if_neg hlen]
      rw [hunfold]
      exact ⟨hnd, fun s hs => Or.inl hs, Or.inl (by omega), fun s hs => hs⟩

/-- Combined availability facts for one instructor, for any duplicate-free
selection of available days out of the weekdays: the final availability is a
set of (day, period) pairs on weekdays with periods 0–19, and either reaches
`min_periods_needed` or covers all five weekdays. -/
theorem availability_props (nct minp : Nat) (r : Rng) (days : List String)
    (hnd : days.Nodup) (hsub : ∀ d ∈ days, d ∈ weekdays) :
    ((topUp minp (buildAvailability nct days r).1
        (weekdays.filter (fun d => ¬ d ∈ days))).Nodup ∧
     (∀ s ∈ topUp minp (buildAvailability nct days r).1
        (weekdays.filter (fun d => ¬ d ∈ days)),
        s.day ∈ weekdays ∧ s.period_index ≤ 19) ∧
     (minp ≤ (topUp minp (buildAvailability nct days r).1
        (weekdays.filter (fun d => ¬ d ∈ days))).length ∨
      ∀ d ∈ weekdays, ∃ s ∈ topUp minp (buildAvailability nct days r).1
        (weekdays.filter (fun d => ¬ d ∈ days)), s.day = d)) := by
  obtain ⟨bnd, bmem, bcov⟩ := buildAvailability_props nct days r hnd
  have hwknd : weekdays.Nodup := by decide
  have hremnd : (weekdays.filter (fun d => ¬ d ∈ days)).Nodup :=
    List.Nodup.filter _ hwknd
  have hdisj : ∀ s ∈ (buildAvailability nct days r).1,
      ¬ s.day ∈ weekdays.filter (fun d => ¬ d ∈ days) := by
    intro s hs hmem
    have h1 := (bmem s hs).1
    have h2 := List.of_mem_filter hmem
    simp at h2
    exact h2 h1
  obtain ⟨tnd, tmem, tcov, tincl⟩ := topUp_props _ _ minp bnd hremnd hdisj
  refine ⟨tnd, ?_, ?_⟩
  · intro s hs
    rcases tmem s hs with h | h
    · obtain ⟨h1, h2⟩ := bmem s h
      exact ⟨hsub _ h1, by omega⟩
    · obtain ⟨h1, h2⟩ := h
      exact ⟨List.mem_of_mem_filter h1, by omega⟩
  · rcases tcov with h | h
    · exact Or.inl h
    · refine Or.inr ?_
      intro d hd
      by_cases hmem : d ∈ days
      · obtain ⟨s, hs, hsd⟩ := bcov d hmem
        exact ⟨s, tincl s hs, hsd⟩
      · refine h d ?_
        refine List.mem_filter.mpr ⟨hd, ?_⟩
        simpa using hmem

/-- One instructor-loop step: the head record has the padded `PROF` id and an
availability that is duplicate-free, lies on weekdays with periods 0–19, and
either reaches `min_periods_needed` or covers all five weekdays. -/
theorem genInstructorsFrom_step (courses : List Course) (i n : Nat) (r : Rng) :
    ∃ inst r8,
      genInstructorsFrom courses i (n + 1) r =
        (inst :: (genInstructorsFrom courses (i + 1) n r8).1,
         (genInstructorsFrom courses (i + 1) n r8).2) ∧
      inst.id = "PROF" ++ padZero 3 i ∧
      inst.availability.Nodup ∧
      (∀ s ∈ inst.availability, s.day ∈ weekdays ∧ s.period_index ≤ 19) ∧
      (max ((Rat.floor (qMul (hoursFor courses ("PROF" ++ padZero 3 i)) 2)).toNat * 3) 30 ≤
          inst.availability.length ∨
       ∀ d ∈ weekdays, ∃ s ∈ inst.availability, s.day = d) := by
  have h1 : genInstructorsFrom courses i (n + 1) r =
      (let c1 := choiceD first_names "" r
       let c2 := choiceD last_names "" c1.2
       let inst_id := "PROF" ++ padZero 3 i
       let nct := coursesFor courses inst_id
       let hrs := hoursFor courses inst_id
       let req := (Rat.floor (qMul hrs 2)).toNat
       let minp := max (req * 3) 30
       let c3 := choiceD [4, 5] 0 c2.2
       let c4 := sample c3.1 weekdays c3.2
       let c5 := buildAvailability nct c4.1 c4.2
       let remaining := weekdays.filter (fun d => ¬ d ∈ c4.1)
       let availability := topUp minp c5.1 remaining
       let c6 := choicesD [(-1 : Int), 0, 1] [30/100, 50/100, 20/100] 0 c5.2
       let c7 := coin 3 10 c6.2
       let c8 := choiceD DEPARTMENTS "" c7.2
       let inst : Instructor :=
         { id := inst_id,
           name := "Prof. " ++ c1.1 ++ " " ++ c2.1,
           availability := availability,
           back_to_back_preference := c6.1,
           allow_lunch_teaching := c7.1,
           department := c8.1,
           debug := some
             { courses_to_teach := nct,
               hours_to_teach := hrs,
               available_periods := availability.length,
               required_min_periods := minp } }
       (inst :: (genInstructorsFrom courses (i + 1) n c8.2).1,
        (genInstructorsFrom courses (i + 1) n c8.2).2)) := rfl
  rw [h1]
  have hwknd : weekdays.Nodup := by decide
  obtain ⟨p1, p2, p3⟩ :=
    availability_props (coursesFor courses ("PROF" ++ padZero 3 i))
      (max ((Rat.floor (qMul (hoursFor courses ("PROF" ++ padZero 3 i)) 2)).toNat * 3) 30)
      (sample (choiceD [4, 5] 0 (choiceD last_names "" (choiceD first_names "" r).2).2).1
        weekdays
        (choiceD [4, 5] 0 (choiceD last_names "" (choiceD first_names "" r).2).2).2).2
      (sample (choiceD [4, 5] 0 (choiceD last_names "" (choiceD first_names "" r).2).2).1
        weekdays
        (choiceD [4, 5] 0 (choiceD last_names "" (choiceD first_names "" r).2).2).2).1
      (sample_fst_nodup _ _ _ hwknd)
      (sample_fst_subset _ _ _)
  exact ⟨_, _, rfl, rfl, p1, p2, p3⟩

/-- Indexed specification of the instructor loop: one record per index, with
padded `PROF` id and the availability facts of `genInstructorsFrom_step`. -/
theorem genInstructorsFrom_ok (courses : List Course) :
    ∀ (n i : Nat) (r : Rng),
      (genInstructorsFrom courses i n r).1.length = n ∧
      ∀ j, j < n →
        (((genInstructorsFrom courses i n r).1.getD j dInstructor).id =
            "PROF" ++ padZero 3 (i + j) ∧
         ((genInstructorsFrom courses i n r).1.getD j dInstructor).availability.Nodup ∧
         (∀ s ∈ ((genInstructorsFrom courses i n r).1.getD j dInstructor).availability,
            s.day ∈ weekdays ∧ s.period_index ≤ 19) ∧
         (max ((Rat.floor (qMul (hoursFor courses ("PROF" ++ padZero 3 (i + j))) 2)).toNat * 3)
            30 ≤
            ((genInstructorsFrom courses i n r).1.getD j dInstructor).availability.length ∨
          ∀ d ∈ weekdays,
            ∃ s ∈ ((genInstructorsFrom courses i n r).1.getD j dInstructor).availability,
              s.day = d)) := by
  intro n
  induction n with
  | zero =>
    intro i r
    exact ⟨rfl, fun j hj => absurd hj (by omega)⟩
  | succ n ih =>
    intro i r
    obtain ⟨inst, r8, heq, hid, hnd, hmem, hcov⟩ := genInstructorsFrom_step courses i n r
    obtain ⟨ihlen, ihspec⟩ := ih (i + 1) r8
    rw [heq]
    refine ⟨by simpa using ihlen, ?_⟩
    intro j hj
    match j with
    | 0 =>
      refine ⟨by simpa using hid, by simpa using hnd, by simpa using hmem, ?_⟩
      have : i + 0 = i := by omega
      rw [this]
      simpa using hcov
    | j + 1 =>
      have hj2 : j < n := by omega
      have := ihspec j hj2
      have harith : i + 1 + j = i + (j + 1) := by omega
      rw [harith] at this
      simpa using this

/-- Every course of a generated catalog has weekly hours 1.5 or 3.0. -/
theorem generated_courses_hours (r : Rng) (nc ni : Nat) (hni : 1 ≤ ni) :
    ∀ c ∈ generatedCourses nc ni r,
      c.weekly_hours = 3/2 ∨ c.weekly_hours = 3 := by
  unfold generatedCourses
  have hunfold : generate_courses nc ni r =
      genCoursesFrom (generate_course_names nc r).1 ni 0 nc
        (generate_course_names nc r).2 := rfl
  obtain ⟨l, r2, heq, hlen, hspec⟩ :=
    genCoursesFrom_ok (generate_course_names nc r).1 ni (by omega) nc 0
      (generate_course_names nc r).2
  rw [hunfold, heq]
  simp only [exVal]
  intro c hc
  obtain ⟨j, hj, rfl⟩ := List.mem_iff_getElem.mp hc
  have hj2 : j < nc := by omega
  have := (hspec j hj2).2.2
  rwa [List.getD_eq_getElem _ _ (by omega)] at this

/-- A sum of weekly-hours values doubles to a natural number. -/
theorem sum_hours_twice_nat :
    ∀ (l : List ℚ), (∀ x ∈ l, x = 3/2 ∨ x = 3) → ∃ m : ℕ, l.sum * 2 = (m : ℚ) := by
  intro l
  induction l with
  | nil => exact fun _ => ⟨0, by simp⟩
  | cons x xs ih =>
    intro h
    obtain ⟨m, hm⟩ := ih (fun y hy => h y (List.mem_cons_of_mem _ hy))
    rcases h x (List.mem_cons_self _ _) with rfl | rfl
    · exact ⟨3 + m, by push_cast; rw [List.sum_cons]; ring_nf; ring_nf at hm; linarith⟩
    · exact ⟨6 + m, by push_cast; rw [List.sum_cons]; ring_nf; ring_nf at hm; linarith⟩

/-- `hoursFor` of a catalog whose courses all have hours 1.5 or 3.0 doubles
to a natural number. -/
theorem hoursFor_twice_nat (courses : List Course) (iid : String)
    (h : ∀ c ∈ courses, c.weekly_hours = 3/2 ∨ c.weekly_hours = 3) :
    ∃ m : ℕ, hoursFor courses iid * 2 = (m : ℚ) := by
  unfold hoursFor
  rw [qSum_eq]
  refine sum_hours_twice_nat _ ?_
  intro x hx
  obtain ⟨c, hc, rfl⟩ := List.mem_map.mp hx
  exact h c (List.mem_of_mem_filter hc)

/-- `Rat.floor` of a natural-number cast. -/
theorem ratFloor_natCast (m : ℕ) : Rat.floor ((m : ℚ)) = (m : ℤ) := by
  rw [Rat.floor_def']
  simp

/-- C8: every generated instructor's availability denotes a set — no
duplicate (day, period) pair, every day among Mon–Fri, every period index
in 0–19. -/
theorem availability_set_wellformed (courses : List Course) (r : Rng)
    (ni nc j : Nat) (hj : j < ni) :
    (nthInstructor ni nc courses r j).availability.Nodup ∧
    ∀ s ∈ (nthInstructor ni nc courses r j).availability,
      s.day ∈ weekdays ∧ s.period_index ≤ 19 := by
  have hunfold : nthInstructor ni nc courses r j =
      (genInstructorsFrom courses 0 ni r).1.getD j dInstructor := rfl
  rw [hunfold]
  obtain ⟨hlen, hspec⟩ := genInstructorsFrom_ok courses ni 0 r
  obtain ⟨_, hnd, hmem, _⟩ := hspec j hj
  exact ⟨hnd, hmem⟩

/-- Witness for C8: one instructor, empty catalog, all-zero stream. -/
theorem availability_set_wellformed_witness :
    0 < 1 ∧
    ((nthInstructor 1 1 [] rng0 0).availability.Nodup ∧
     ∀ s ∈ (nthInstructor 1 1 [] rng0 0).availability,
       s.day ∈ weekdays ∧ s.period_index ≤ 19) :=
  ⟨Nat.zero_lt_one, availability_set_wellformed [] rng0 1 1 0 Nat.zero_lt_one⟩

/-- C2: for every generated instructor with positive required hours, the
availability reaches three times the required hours (in hours; each entry is
half an hour), or all five weekdays already appear in the availability so
the top-up loop could add no further day. -/
theorem instructor_availability_invariant (r r2 : Rng) (nc ni j : Nat)
    (hni : 1 ≤ ni) (hj : j < ni)
    (hpos : 0 < hoursFor (generatedCourses nc ni r)
        ((nthInstructor ni nc (generatedCourses nc ni r) r2 j).id)) :
    3 * hoursFor (generatedCourses nc ni r)
        ((nthInstructor ni nc (generatedCourses nc ni r) r2 j).id) ≤
      ((nthInstructor ni nc (generatedCourses nc ni r) r2 j).availability.length : ℚ) *
        (1/2) ∨
    ∀ d ∈ weekdays,
      ∃ s ∈ (nthInstructor ni nc (generatedCourses nc ni r) r2 j).availability,
        s.day = d := by
  have hunfold : nthInstructor ni nc (generatedCourses nc ni r) r2 j =
      (genInstructorsFrom (generatedCourses nc ni r) 0 ni r2).1.getD j dInstructor := rfl
  rw [hunfold]
  obtain ⟨hlen, hspec⟩ := genInstructorsFrom_ok (generatedCourses nc ni r) ni 0 r2
  obtain ⟨hid, hnd, hmem, hcov⟩ := hspec j hj
  rw [hid]
  obtain ⟨m, hm⟩ := hoursFor_twice_nat (generatedCourses nc ni r)
    ("PROF" ++ padZero 3 (0 + j)) (generated_courses_hours r nc ni hni)
  rcases hcov with hlen2 | hcovd
  · left
    have hfl : (Rat.floor (qMul (hoursFor (generatedCourses nc ni r)
        ("PROF" ++ padZero 3 (0 + j))) 2)).toNat = m := by
      rw [qMul_eq, hm, ratFloor_natCast, Int.toNat_natCast]
    rw [hfl] at hlen2
    have h3 : m * 3 ≤
        ((genInstructorsFrom (generatedCourses nc ni r) 0 ni r2).1.getD j
          dInstructor).availability.length :=
      le_trans (le_max_left _ _) hlen2
    have hc : ((m : ℚ)) * 3 ≤
        (((genInstructorsFrom (generatedCourses nc ni r) 0 ni r2).1.getD j
          dInstructor).availability.length : ℚ) := by
      exact_mod_cast h3
    linarith [hm]
  · exact Or.inr hcovd

/-- Witness for C2: one course, one instructor, all-zero stream; the
instructor teaches 1.5 hours, so the hypothesis is positive. -/
theorem instructor_availability_invariant_witness :
    1 ≤ 1 ∧ 0 < 1 ∧
    0 < hoursFor (generatedCourses 1 1 rng0)
        ((nthInstructor 1 1 (generatedCourses 1 1 rng0) rng0 0).id) ∧
    (3 * hoursFor (generatedCourses 1 1 rng0)
        ((nthInstructor 1 1 (generatedCourses 1 1 rng0) rng0 0).id) ≤
      ((nthInstructor 1 1 (generatedCourses 1 1 rng0) rng0 0).availability.length : ℚ) *
        (1/2) ∨
     ∀ d ∈ weekdays,
       ∃ s ∈ (nthInstructor 1 1 (generatedCourses 1 1 rng0) rng0 0).availability,
         s.day = d) :=
  ⟨Nat.le_refl 1, Nat.zero_lt_one, by decide,
   instructor_availability_invariant rng0 rng0 1 1 0 (Nat.le_refl 1) Nat.zero_lt_one
     (by decide)⟩

/-! ## Classroom generation -/

/-- Prefix bound for `listMaxNat`: the accumulator never decreases. -/
theorem foldl_max_le_init : ∀ (l : List Nat) (a : Nat), a ≤ l.foldl max a := by
  intro l
  induction l with
  | nil => intro a; exact Nat.le_refl a
  | cons x xs ih =>
    intro a
    exact le_trans (Nat.le_max_left a x) (ih (max a x))

/-- Every member of a list is bounded by `listMaxNat`. -/
theorem le_listMaxNat : ∀ (l : List Nat) (x : Nat), x ∈ l → x ≤ listMaxNat l := by
  have haux : ∀ (l : List Nat) (a x : Nat), x ∈ l → x ≤ l.foldl max a := by
    intro l
    induction l with
    | nil => intro a x hx; simp at hx
    | cons y ys ih =>
      intro a x hx
      rcases List.mem_cons.mp hx with rfl | hx2
      · exact le_trans (Nat.le_max_right a x) (foldl_max_le_init ys (max a x))
      · exact ih (max a y) x hx2
  intro l x hx
  exact haux l 0 x hx

/-- One classroom-loop step: the head room's capacity is at least
`max_enrollment` while the index is below 3. -/
theorem genClassroomsFrom_step (m i n : Nat) (r : Rng) :
    ∃ room r3,
      genClassroomsFrom m i (n + 1) r =
        (room :: (genClassroomsFrom m (i + 1) n r3).1,
         (genClassroomsFrom m (i + 1) n r3).2) ∧
      (i < 3 → m ≤ room.capacity) := by
  have h1 : genClassroomsFrom m i (n + 1) r =
      (let c1 := choiceD buildings "" r
       let c2 := randInt 100 599 c1.2
       let c3 : Nat × Rng :=
         if i < 3 then
           randInt (max 120 m) (max 250 (m + 50)) c2.2
         else
           let cb := choicesD capacity_distribution
             (capacity_distribution.map (fun t => t.2.2)) (20, 30, 10/100) c2.2
           randInt cb.1.1 cb.1.2.1 cb.2
       let room : Classroom :=
         { id := "ROOM" ++ padZero 3 i,
           name := c1.1 ++ " " ++ natStr c2.1,
           capacity := c3.1 }
       (room :: (genClassroomsFrom m (i + 1) n c3.2).1,
        (genClassroomsFrom m (i + 1) n c3.2).2)) := rfl
  rw [h1]
  refine ⟨_, _, rfl, ?_⟩
  intro hi
  show m ≤ ((if i < 3 then _ else _ : Nat × Rng)).1
  rw [if_pos hi]
  have hlohi : max 120 m ≤ max 250 (m + 50) := by omega
  have hb := (randInt_fst_le hlohi (randInt 100 599 (choiceD buildings "" r).2).2).1
  omega

/-- The classroom loop produces exactly the requested number of rooms. -/
theorem genClassroomsFrom_len (m : Nat) :
    ∀ (n i : Nat) (r : Rng), (genClassroomsFrom m i n r).1.length = n := by
  intro n
  induction n with
  | zero => intro i r; rfl
  | succ n ih =>
    intro i r
    obtain ⟨room, r3, heq, _⟩ := genClassroomsFrom_step m i n r
    rw [heq]
    simpa using ih (i + 1) r3

/-- C3: with a nonempty catalog and at least one room, classroom generation
succeeds and the maximum classroom capacity is at least the maximum expected
enrollment (the first room is forced into the large-capacity range). -/
theorem classroom_capacity_invariant (r : Rng) (num_rooms : Nat)
    (courses : List Course) (hne : courses ≠ []) (hnr : 1 ≤ num_rooms) :
    exOk (generate_classrooms num_rooms courses r) = true ∧
    listMaxNat (courses.map (fun c => c.expected_enrollment)) ≤
      listMaxNat ((exVal (generate_classrooms num_rooms courses r)).1.map
        (fun c => c.capacity)) := by
  have hemp : courses.isEmpty = false := by
    simpa [List.isEmpty_iff] using hne
  obtain ⟨n, rfl⟩ : ∃ n, num_rooms = n + 1 := ⟨num_rooms - 1, by omega⟩
  obtain ⟨room, r3, heq, hcap⟩ :=
    genClassroomsFrom_step (listMaxNat (courses.map (fun c => c.expected_enrollment)))
      0 n r
  have hunfold : generate_classrooms (n + 1) courses r =
      (if ((genClassroomsFrom
          (listMaxNat (courses.map (fun c => c.expected_enrollment))) 0 (n + 1) r).1).isEmpty
       then Except.error PyError.indexError
       else Except.ok (genClassroomsFrom
          (listMaxNat (courses.map (fun c => c.expected_enrollment))) 0 (n + 1) r)) := by
    unfold generate_classrooms
    rw [hemp]
    rfl
  rw [hunfold, heq]
  have hcons : (room :: (genClassroomsFrom
      (listMaxNat (courses.map (fun c => c.expected_enrollment))) (0 + 1) n r3).1).isEmpty =
      false := rfl
  rw [hcons]
  refine ⟨rfl, ?_⟩
  simp only [exVal]
  refine le_trans (hcap (by omega)) ?_
  exact le_listMaxNat _ _ (List.mem_map.mpr ⟨room, List.mem_cons_self _ _, rfl⟩)

/-- Witness for C3: a one-record catalog and a single room. -/
theorem classroom_capacity_invariant_witness :
    ([dCourse] : List Course) ≠ [] ∧ 1 ≤ 1 ∧
    (exOk (generate_classrooms 1 [dCourse] rng0) = true ∧
     listMaxNat (([dCourse] : List Course).map (fun c => c.expected_enrollment)) ≤
       listMaxNat ((exVal (generate_classrooms 1 [dCourse] rng0)).1.map
         (fun c => c.capacity))) :=
  ⟨by simp, Nat.le_refl 1,
   classroom_capacity_invariant rng0 1 [dCourse] (by simp) (Nat.le_refl 1)⟩

/-! ## Student generation -/

/-- Projection-style unfolding of one `pickCourses` step. -/
theorem pickCourses_succ (probs : List (String × ℚ)) (k : Nat)
    (available_courses : List Course) (r : Rng) :
    pickCourses probs (k + 1) available_courses r =
      (if available_courses.isEmpty then ([], r)
       else
         let c1 := choicesD (probs.map (fun x => x.1)) (probs.map (fun x => x.2)) "" r
         let candidates := available_courses.filter (fun c => c.level = c1.1)
         let candidates2 := if candidates.isEmpty then available_courses else candidates
         let c2 := choiceD candidates2 dCourse c1.2
         let c3 := pickCourses probs k (available_courses.erase c2.1) c2.2
         (c2.1.id :: c3.1, c3.2)) := rfl

/-- Every id selected by the per-student loop names a course of the pool it
started from. -/
theorem pickCourses_subset (probs : List (String × ℚ)) :
    ∀ (k : Nat) (avail : List Course) (r : Rng),
      ∀ x ∈ (pickCourses probs k avail r).1, ∃ c ∈ avail, c.id = x := by
  intro k
  induction k with
  | zero => intro avail r x hx; simp [pickCourses] at hx
  | succ k ih =>
    intro avail r x hx
    rw [pickCourses_succ] at hx
    by_cases hav : avail.isEmpty
    · rw [if_pos hav] at hx
      simp at hx
    · rw [if_neg hav] at hx
      simp only at hx
      have havne : avail ≠ [] := by
        simpa [List.isEmpty_iff] using hav
      have hc2mem : (choiceD
          (if (avail.filter (fun c => c.level =
              (choicesD (probs.map (fun x => x.1)) (probs.map (fun x => x.2)) "" r).1)).isEmpty
           then avail
           else avail.filter (fun c => c.level =
              (choicesD (probs.map (fun x => x.1)) (probs.map (fun x => x.2)) "" r).1))
          dCourse
          (choicesD (probs.map (fun x => x.1)) (probs.map (fun x => x.2)) "" r).2).1 ∈
          avail := by
        by_cases hfe : (avail.filter (fun c => c.level =
            (choicesD (probs.map (fun x => x.1)) (probs.map (fun x => x.2)) "" r).1)).isEmpty
        · rw [if_pos hfe]
          exact choiceD_fst_mem havne _ _
        · rw [if_neg hfe]
          refine List.mem_of_mem_filter (choiceD_fst_mem ?_ _ _)
          simpa [List.isEmpty_iff] using hfe
      rcases List.mem_cons.mp hx with rfl | hx2
      · exact ⟨_, hc2mem, rfl⟩
      · obtain ⟨c, hc, rfl⟩ := ih _ _ _ hx2
        exact ⟨c, List.erase_subset _ _ hc, rfl⟩

/-- The per-student loop picks `min k (pool size)` courses. -/
theorem pickCourses_length (probs : List (String × ℚ)) :
    ∀ (k : Nat) (avail : List Course) (r : Rng),
      (pickCourses probs k avail r).1.length = min k avail.length := by
  intro k
  induction k with
  | zero => intro avail r; simp [pickCourses]
  | succ k ih =>
    intro avail r
    rw [pickCourses_succ]
    by_cases hav : avail.isEmpty
    · rw [if_pos hav]
      have : avail = [] := by simpa [List.isEmpty_iff] using hav
      simp [this]
    · rw [if_neg hav]
      simp only [List.length_cons]
      have havne : avail ≠ [] := by simpa [List.isEmpty_iff] using hav
      have hpos : 0 < avail.length := List.length_pos.mpr havne
      have hc2mem : (choiceD
          (if (avail.filter (fun c => c.level =
              (choicesD (probs.map (fun x => x.1)) (probs.map (fun x => x.2)) "" r).1)).isEmpty
           then avail
           else avail.filter (fun c => c.level =
              (choicesD (probs.map (fun x => x.1)) (probs.map (fun x => x.2)) "" r).1))
          dCourse
          (choicesD (probs.map (fun x => x.1)) (probs.map (fun x => x.2)) "" r).2).1 ∈
          avail := by
        by_cases hfe : (avail.filter (fun c => c.level =
            (choicesD (probs.map (fun x => x.1)) (probs.map (fun x => x.2)) "" r).1)).isEmpty
        · rw [if_pos hfe]
          exact choiceD_fst_mem havne _ _
        · rw [if_neg hfe]
          refine List.mem_of_mem_filter (choiceD_fst_mem ?_ _ _)
          simpa [List.isEmpty_iff] using hfe
      rw [ih]
      rw [List.length_erase_of_mem hc2mem]
      omega

/-- The drawn number of courses to take is between 2 and 5 (graduates draw
from 2–4, everyone else from 3–5). -/
theorem numCoursesDraw_bounds (s : String) (rr : Rng) :
    2 ≤ (if s = "graduate" then choiceD [2, 3, 4] 0 rr else choiceD [3, 4, 5] 0 rr).1 ∧
    (if s = "graduate" then choiceD [2, 3, 4] 0 rr else choiceD [3, 4, 5] 0 rr).1 ≤ 5 := by
  split
  · have h := choiceD_fst_mem (show ([2, 3, 4] : List Nat) ≠ [] by simp) 0 rr
    simp only [List.mem_cons, List.mem_singleton] at h
    rcases h with h | h | h | h <;> first | omega | simp at h
  · have h := choiceD_fst_mem (show ([3, 4, 5] : List Nat) ≠ [] by simp) 0 rr
    simp only [List.mem_cons, List.mem_singleton] at h
    rcases h with h | h | h | h <;> first | omega | simp at h

/-- One student-loop step: the head record's enrollment list is a
`pickCourses` run over the whole catalog with 2–5 requested courses. -/
theorem genStudentsFrom_step (courses : List Course) (i n : Nat) (r : Rng) :
    ∃ st r5,
      genStudentsFrom courses i (n + 1) r =
        (st :: (genStudentsFrom courses (i + 1) n r5).1,
         (genStudentsFrom courses (i + 1) n r5).2) ∧
      ∃ (probs : List (String × ℚ)) (k : Nat) (r2 : Rng),
        st.enrolled_course_ids = (pickCourses probs k courses r2).1 ∧
        2 ≤ k ∧ k ≤ 5 := by
  have h1 : genStudentsFrom courses i (n + 1) r =
      (let c1 := choicesD (STUDENT_YEARS.map (fun x => x.1))
          (STUDENT_YEARS.map (fun x => x.2)) "" r
       let c2 := if c1.1 = "graduate" then choiceD [2, 3, 4] 0 c1.2
                 else choiceD [3, 4, 5] 0 c1.2
       let c3 := pickCourses (levelProbsFor c1.1) c2.1 courses c2.2
       let c4 := choiceD student_names "" c3.2
       let st : Student :=
         { id := "STU" ++ padZero 4 i,
           name := c4.1 ++ " " ++ natStr i,
           year := c1.1,
           enrolled_course_ids := c3.1 }
       (st :: (genStudentsFrom courses (i + 1) n c4.2).1,
        (genStudentsFrom courses (i + 1) n c4.2).2)) := rfl
  rw [h1]
  refine ⟨_, _, rfl, _, _, _, rfl, ?_, ?_⟩
  · exact (numCoursesDraw_bounds _ _).1
  · exact (numCoursesDraw_bounds _ _).2

/-- Indexed specification of the student loop: one record per index, whose
enrollment list is a `pickCourses` run over the catalog with 2–5 requested
courses. -/
theorem genStudentsFrom_ok (courses : List Course) :
    ∀ (n i : Nat) (r : Rng),
      (genStudentsFrom courses i n r).1.length = n ∧
      ∀ j, j < n →
        ∃ (probs : List (String × ℚ)) (k : Nat) (r2 : Rng),
          ((genStudentsFrom courses i n r).1.getD j dStudent).enrolled_course_ids =
            (pickCourses probs k courses r2).1 ∧
          2 ≤ k ∧ k ≤ 5 := by
  intro n
  induction n with
  | zero => intro i r; exact ⟨rfl, fun j hj => absurd hj (by omega)⟩
  | succ n ih =>
    intro i r
    obtain ⟨st, r5, heq, probs, k, r2, hen, hk2, hk5⟩ := genStudentsFrom_step courses i n r
    obtain ⟨ihlen, ihspec⟩ := ih (i + 1) r5
    rw [heq]
    refine ⟨by simpa using ihlen, ?_⟩
    intro j hj
    match j with
    | 0 => exact ⟨probs, k, r2, by simpa using hen, hk2, hk5⟩
    | j + 1 =>
      have hj2 : j < n := by omega
      obtain ⟨probs2, k2, r22, hen2, h2, h5⟩ := ihspec j hj2
      exact ⟨probs2, k2, r22, by simpa using hen2, h2, h5⟩

/-- Shared shape facts about a generated catalog: its length and each
record's padded ids. -/
theorem generatedCourses_spec (r : Rng) (nc ni : Nat) (hni : 1 ≤ ni) :
    (generatedCourses nc ni r).length = nc ∧
    ∀ i, i < nc →
      ((generatedCourses nc ni r).getD i dCourse).instructor_id =
        "PROF" ++ padZero 3 (i % ni) ∧
      ((generatedCourses nc ni r).getD i dCourse).id = "COURSE" ++ padZero 3 i := by
  unfold generatedCourses
  have hunfold : generate_courses nc ni r =
      genCoursesFrom (generate_course_names nc r).1 ni 0 nc
        (generate_course_names nc r).2 := rfl
  obtain ⟨l, r2, heq, hlen, hspec⟩ :=
    genCoursesFrom_ok (generate_course_names nc r).1 ni (by omega) nc 0
      (generate_course_names nc r).2
  rw [hunfold, heq]
  simp only [exVal]
  refine ⟨hlen, ?_⟩
  intro i hi
  obtain ⟨ha, hb, _⟩ := hspec i hi
  constructor
  · simpa using ha
  · simpa using hb

/-- C9: referential integrity of the assembled collections — every course's
`instructor_id` names a generated instructor record, and every id in any
student's enrollment list names a generated course record. -/
theorem referential_integrity (r r2 r3 : Rng) (nc ni ns : Nat) (hni : 1 ≤ ni) :
    (∀ i, i < nc →
      ((generatedCourses nc ni r).getD i dCourse).instructor_id ∈
        (generate_instructors ni nc (generatedCourses nc ni r) r2).1.map
          (fun inst => inst.id)) ∧
    (∀ j, j < ns →
      ∀ cid ∈ ((generate_students ns (generatedCourses nc ni r) r3).1.getD j
          dStudent).enrolled_course_ids,
        cid ∈ (generatedCourses nc ni r).map (fun c => c.id)) := by
  obtain ⟨hclen, hcspec⟩ := generatedCourses_spec r nc ni hni
  constructor
  · intro i hi
    rw [(hcspec i hi).1]
    have hiunfold : generate_instructors ni nc (generatedCourses nc ni r) r2 =
        genInstructorsFrom (generatedCourses nc ni r) 0 ni r2 := rfl
    rw [hiunfold]
    obtain ⟨hilen, hispec⟩ := genInstructorsFrom_ok (generatedCourses nc ni r) ni 0 r2
    have hjlt : i % ni < ni := Nat.mod_lt _ (by omega)
    refine List.mem_map.mpr
      ⟨(genInstructorsFrom (generatedCourses nc ni r) 0 ni r2).1.getD (i % ni) dInstructor,
       getD_mem (by omega) _, ?_⟩
    have := (hispec (i % ni) hjlt).1
    simpa using this
  · intro j hj cid hcid
    have hsunfold : generate_students ns (generatedCourses nc ni r) r3 =
        genStudentsFrom (generatedCourses nc ni r) 0 ns r3 := rfl
    rw [hsunfold] at hcid
    obtain ⟨hslen, hsspec⟩ := genStudentsFrom_ok (generatedCourses nc ni r) ns 0 r3
    obtain ⟨probs, k, rr, hen, _, _⟩ := hsspec j hj
    rw [hen] at hcid
    obtain ⟨c, hc, rfl⟩ := pickCourses_subset probs k _ rr cid hcid
    exact List.mem_map.mpr ⟨c, hc, rfl⟩

/-- Witness for C9: one course, one instructor, one student, all-zero
stream. -/
theorem referential_integrity_witness :
    1 ≤ 1 ∧
    ((∀ i, i < 1 →
      ((generatedCourses 1 1 rng0).getD i dCourse).instructor_id ∈
        (generate_instructors 1 1 (generatedCourses 1 1 rng0) rng0).1.map
          (fun inst => inst.id)) ∧
     (∀ j, j < 1 →
      ∀ cid ∈ ((generate_students 1 (generatedCourses 1 1 rng0) rng0).1.getD j
          dStudent).enrolled_course_ids,
        cid ∈ (generatedCourses 1 1 rng0).map (fun c => c.id))) :=
  ⟨Nat.le_refl 1, referential_integrity rng0 rng0 rng0 1 1 1 (Nat.le_refl 1)⟩

/-! ## Injectivity of the padded decimal id formats -/

theorem digitsLEAux_zero_fuel : ∀ f, digitsLEAux f 0 = [] := by
  intro f
  cases f <;> rfl

theorem digitsLEAux_congr :
    ∀ (n f1 f2 : Nat), n ≤ f1 → n ≤ f2 → digitsLEAux f1 n = digitsLEAux f2 n := by
  intro n
  induction n using Nat.strong_induction_on with
  | _ n ih =>
    intro f1 f2 h1 h2
    match n, f1, f2 with
    | 0, f1, f2 => rw [digitsLEAux_zero_fuel, digitsLEAux_zero_fuel]
    | m + 1, g1 + 1, g2 + 1 =>
      show ((m + 1) % 10) :: digitsLEAux g1 ((m + 1) / 10) =
        ((m + 1) % 10) :: digitsLEAux g2 ((m + 1) / 10)
      have hdiv : (m + 1) / 10 < m + 1 := Nat.div_lt_self (Nat.succ_pos m) (by decide)
      rw [ih ((m + 1) / 10) hdiv g1 g2 (by omega) (by omega)]

/-- Unfolding equation for `digitsLE` on a successor. -/
theorem digitsLE_succ (n : Nat) :
    digitsLE (n + 1) = ((n + 1) % 10) :: digitsLE ((n + 1) / 10) := by
  show digitsLEAux (n + 1) (n + 1) = ((n + 1) % 10) :: digitsLEAux ((n + 1) / 10) ((n + 1) / 10)
  show ((n + 1) % 10) :: digitsLEAux n ((n + 1) / 10) = _
  have hdiv : (n + 1) / 10 ≤ n := by
    have := Nat.div_lt_self (Nat.succ_pos n) (show 1 < 10 by decide)
    omega
  rw [digitsLEAux_congr ((n + 1) / 10) n ((n + 1) / 10) hdiv (Nat.le_refl _)]

theorem digitChar_toNat {d : Nat} (h : d < 10) : (digitChar d).toNat = 48 + d := by
  interval_cases d <;> decide

/-- Folding the decoder over the rendered digits recovers the number. -/
theorem decode_digits (step : Nat → Char → Nat)
    (hstep : step = fun acc c => 10 * acc + (c.toNat - 48)) :
    ∀ (n acc : Nat),
      ((digitsLE n).reverse.map digitChar).foldl step acc =
        acc * 10 ^ (digitsLE n).length + n := by
  intro n
  induction n using Nat.strong_induction_on with
  | _ n ih =>
    intro acc
    match n with
    | 0 =>
      show acc = acc * 10 ^ (List.length []) + 0
      simp
    | m + 1 =>
      rw [digitsLE_succ]
      have hdiv : (m + 1) / 10 < m + 1 := Nat.div_lt_self (Nat.succ_pos m) (by decide)
      rw [List.reverse_cons, List.map_append, List.foldl_append]
      rw [ih ((m + 1) / 10) hdiv acc]
      show step _ (digitChar ((m + 1) % 10)) = _
      rw [hstep]
      simp only [List.length_cons]
      have hlt : (m + 1) % 10 < 10 := Nat.mod_lt _ (by decide)
      rw [digitChar_toNat hlt]
      have hdm : 10 * ((m + 1) / 10) + (m + 1) % 10 = m + 1 := Nat.div_add_mod _ _
      have hmul : acc * 10 ^ ((digitsLE ((m + 1) / 10)).length + 1) =
          acc * 10 ^ (digitsLE ((m + 1) / 10)).length * 10 := by ring
      omega

/-- Decoding inverts the decimal rendering. -/
theorem decodeDec_natDecimal (n : Nat) : decodeDec (natDecimal n) = n := by
  match n with
  | 0 => rfl
  | m + 1 =>
    show (natDecimal (m + 1)).foldl _ 0 = m + 1
    rw [show natDecimal (m + 1) = (digitsLE (m + 1)).reverse.map digitChar from rfl]
    rw [decode_digits _ rfl (m + 1) 0]
    simp

/-- Leading zeros do not change the decoded value when the accumulator is
zero. -/
theorem decodeDec_replicate_zero (k : Nat) (l : List Char) :
    decodeDec (List.replicate k '0' ++ l) = decodeDec l := by
  show (List.replicate k '0' ++ l).foldl _ 0 = l.foldl _ 0
  rw [List.foldl_append]
  have hz : ∀ j, (List.replicate j '0').foldl
      (fun acc c => 10 * acc + (c.toNat - 48)) 0 = 0 := by
    intro j
    induction j with
    | zero => rfl
    | succ j ihj =>
      show (List.replicate j '0').foldl _ (10 * 0 + ('0'.toNat - 48)) = 0
      simpa using ihj
  rw [hz k]

/-- The zero-padded decimal format is injective at every width. -/
theorem padZero_injective (w a b : Nat) (h : padZero w a = padZero w b) : a = b := by
  unfold padZero at h
  have hdata : List.replicate (w - (natDecimal a).length) '0' ++ natDecimal a =
      List.replicate (w - (natDecimal b).length) '0' ++ natDecimal b := by
    have := congrArg String.data h
    simpa using this
  have := congrArg decodeDec hdata
  rwa [decodeDec_replicate_zero, decodeDec_replicate_zero,
    decodeDec_natDecimal, decodeDec_natDecimal] at this

/-- A fixed prefix followed by the padded decimal format is injective. -/
theorem prefixed_padZero_injective (p : String) (w a b : Nat)
    (h : p ++ padZero w a = p ++ padZero w b) : a = b := by
  refine padZero_injective w a b ?_
  have hdata := congrArg String.data h
  simp only [String.data_append] at hdata
  have := List.append_cancel_left hdata
  unfold padZero
  exact congrArg String.mk this

/-- The ids of a generated catalog are pairwise distinct. -/
theorem generatedCourses_id_nodup (r : Rng) (nc ni : Nat) (hni : 1 ≤ ni) :
    ((generatedCourses nc ni r).map (fun c => c.id)).Nodup := by
  obtain ⟨hclen, hcspec⟩ := generatedCourses_spec r nc ni hni
  rw [List.Nodup, List.pairwise_iff_getElem]
  intro i j hi hj hij
  simp only [List.getElem_map]
  rw [List.length_map, hclen] at hi hj
  have hi2 : i < nc := hi
  have hj2 : j < nc := hj
  have hidi : (generatedCourses nc ni r)[i].id = "COURSE" ++ padZero 3 i := by
    have := (hcspec i hi2).2
    rwa [List.getD_eq_getElem _ _ (by omega)] at this
  have hidj : (generatedCourses nc ni r)[j].id = "COURSE" ++ padZero 3 j := by
    have := (hcspec j hj2).2
    rwa [List.getD_eq_getElem _ _ (by omega)] at this
  rw [hidi, hidj]
  intro hcontra
  exact absurd (prefixed_padZero_injective "COURSE" 3 i j hcontra) (by omega)

/-- Erasing an element commutes with projecting a duplicate-free key. -/
theorem map_erase_of_key_nodup (f : Course → String) :
    ∀ (l : List Course) (c : Course), (l.map f).Nodup → c ∈ l →
      (l.erase c).map f = (l.map f).erase (f c) := by
  intro l
  induction l with
  | nil => intro c _ hc; simp at hc
  | cons a as ih =>
    intro c hnd hc
    by_cases hac : a = c
    · subst hac
      rw [List.erase_cons_head, List.map_cons, List.erase_cons_head]
    · have hcas : c ∈ as := by
        rcases List.mem_cons.mp hc with h | h
        · exact absurd h.symm hac
        · exact h
      rw [List.map_cons] at hnd
      obtain ⟨hfa, htail⟩ := List.nodup_cons.mp hnd
      have hfc : f c ∈ as.map f := List.mem_map.mpr ⟨c, hcas, rfl⟩
      have hfne : f a ≠ f c := fun he => hfa (he ▸ hfc)
      rw [List.erase_cons_tail (by simpa using (Ne.symm (fun he => hac he.symm))),
        List.map_cons, List.map_cons,
        List.erase_cons_tail (by simpa using hfne)]
      rw [ih c htail hcas]

/-- The course chosen in one selection round belongs to the remaining
pool (the filtered candidate list falls back to the whole pool when the
drawn level has no remaining course). -/
theorem chosen_candidate_mem (avail : List Course) (p : Course → Bool)
    (d : Course) (rr : Rng) (hne : avail ≠ []) :
    (choiceD (if (avail.filter p).isEmpty then avail else avail.filter p) d rr).1 ∈
      avail := by
  by_cases hfe : (avail.filter p).isEmpty
  · rw [if_pos hfe]
    exact choiceD_fst_mem hne d rr
  · rw [if_neg hfe]
    exact List.mem_of_mem_filter
      (choiceD_fst_mem (by simpa [List.isEmpty_iff] using hfe) d rr)

/-- The pool keeps duplicate-free ids after erasing a chosen course. -/
theorem erase_key_nodup (avail : List Course) (c0 : Course)
    (hnd : (avail.map (fun c => c.id)).Nodup) (hc0 : c0 ∈ avail) :
    ((avail.erase c0).map (fun c => c.id)).Nodup := by
  rw [map_erase_of_key_nodup (fun c => c.id) avail c0 hnd hc0]
  exact List.Nodup.erase _ hnd

/-- The id chosen in one round cannot reappear among ids chosen from the
erased pool. -/
theorem pick_head_not_mem (probs : List (String × ℚ)) (k : Nat)
    (avail : List Course) (c0 : Course) (r : Rng)
    (hnd : (avail.map (fun c => c.id)).Nodup) (hc0 : c0 ∈ avail) :
    c0.id ∉ (pickCourses probs k (avail.erase c0) r).1 := by
  intro hmem
  obtain ⟨c2, hc2in, hc2id⟩ := pickCourses_subset probs k _ _ _ hmem
  have hidmem : c0.id ∈ (avail.erase c0).map (fun c => c.id) :=
    hc2id ▸ List.mem_map.mpr ⟨c2, hc2in, rfl⟩
  rw [map_erase_of_key_nodup (fun c => c.id) avail c0 hnd hc0] at hidmem
  exact (List.Nodup.not_mem_erase hnd) hidmem

/-- The per-student selection never repeats a course id when the pool's ids
are pairwise distinct. -/
theorem pickCourses_nodup (probs : List (String × ℚ)) :
    ∀ (k : Nat) (avail : List Course) (r : Rng),
      ((avail.map (fun c => c.id)).Nodup) → (pickCourses probs k avail r).1.Nodup := by
  intro k
  induction k with
  | zero => intro avail r _; simp [pickCourses]
  | succ k ih =>
    intro avail r hnd
    rw [pickCourses_succ]
    by_cases hav : avail.isEmpty
    · rw [if_pos hav]
      exact List.nodup_nil
    · rw [if_neg hav]
      simp only
      have havne : avail ≠ [] := by simpa [List.isEmpty_iff] using hav
      have hc2mem := chosen_candidate_mem avail
        (fun c => decide (c.level =
          (choicesD (probs.map (fun x => x.1)) (probs.map (fun x => x.2)) "" r).1))
        dCourse
        (choicesD (probs.map (fun x => x.1)) (probs.map (fun x => x.2)) "" r).2 havne
      refine List.nodup_cons.mpr ⟨?_, ?_⟩
      · exact pick_head_not_mem probs k avail _ _ hnd hc2mem
      · exact ih _ _ (erase_key_nodup avail _ hnd hc2mem)

/-- C4 counterexample: with a one-course catalog (seed stream all-zero,
`num_courses = 1`, `num_instructors = 1`) the generated student's selection
loop exhausts the pool and stops at a single enrollment, violating the
claimed lower bound of 2. -/
theorem student_enrollment_lower_bound_fails :
    (generate_students 1 (generatedCourses 1 1 rng0) rng0).1.length = 1 ∧
    ((generate_students 1 (generatedCourses 1 1 rng0) rng0).1.getD 0
        dStudent).enrolled_course_ids.length = 1 := by
  constructor <;> decide

/-- C4 (amended): every generated student's enrollment list has no
duplicate course ids and at most 5 entries; it has at least 2 entries
whenever the catalog holds at least 2 courses (in general its size is
`min(num_courses_to_take, catalog size)`, so a smaller catalog caps it). -/
theorem student_enrollment_bounds_amended (r r3 : Rng) (nc ni ns j : Nat)
    (hni : 1 ≤ ni) (hj : j < ns) :
    (2 ≤ nc →
      2 ≤ ((generate_students ns (generatedCourses nc ni r) r3).1.getD j
        dStudent).enrolled_course_ids.length) ∧
    ((generate_students ns (generatedCourses nc ni r) r3).1.getD j
        dStudent).enrolled_course_ids.length ≤ 5 ∧
    ((generate_students ns (generatedCourses nc ni r) r3).1.getD j
        dStudent).enrolled_course_ids.Nodup := by
  have hsunfold : generate_students ns (generatedCourses nc ni r) r3 =
      genStudentsFrom (generatedCourses nc ni r) 0 ns r3 := rfl
  rw [hsunfold]
  obtain ⟨hslen, hsspec⟩ := genStudentsFrom_ok (generatedCourses nc ni r) ns 0 r3
  obtain ⟨probs, k, r2, hen, hk2, hk5⟩ := hsspec j hj
  rw [hen]
  obtain ⟨hclen, _⟩ := generatedCourses_spec r nc ni hni
  rw [pickCourses_length]
  refine ⟨?_, ?_, ?_⟩
  · intro hnc; rw [hclen]; omega
  · rw [hclen]; omega
  · exact pickCourses_nodup probs k _ r2 (generatedCourses_id_nodup r nc ni hni)

/-- Witness for the amended C4: two courses, one instructor, one student. -/
theorem student_enrollment_bounds_amended_witness :
    1 ≤ 1 ∧ 0 < 1 ∧
    ((2 ≤ 2 →
      2 ≤ ((generate_students 1 (generatedCourses 2 1 rng0) rng0).1.getD 0
        dStudent).enrolled_course_ids.length) ∧
     ((generate_students 1 (generatedCourses 2 1 rng0) rng0).1.getD 0
        dStudent).enrolled_course_ids.length ≤ 5 ∧
     ((generate_students 1 (generatedCourses 2 1 rng0) rng0).1.getD 0
        dStudent).enrolled_course_ids.Nodup) :=
  ⟨Nat.le_refl 1, Nat.zero_lt_one,
   student_enrollment_bounds_amended rng0 rng0 2 1 1 0 (Nat.le_refl 1)
     Nat.zero_lt_one⟩

/-! ## The feasibility verifier on generated collections -/

/-- The first-appearance pass only yields ids that occur in its input. -/
theorem firstOccAux_subset :
    ∀ (fuel : Nat) (l : List String), ∀ x ∈ firstOccAux fuel l, x ∈ l := by
  intro fuel
  induction fuel with
  | zero =>
    intro l x hx
    cases l with
    | nil => simpa [firstOccAux] using hx
    | cons y ys => simpa [firstOccAux] using hx
  | succ fuel ih =>
    intro l x hx
    cases l with
    | nil => simpa [firstOccAux] using hx
    | cons y ys =>
      rcases List.mem_cons.mp (by simpa [firstOccAux] using hx) with rfl | hx2
      · exact List.mem_cons_self _ _
      · exact List.mem_cons_of_mem _ (List.mem_of_mem_filter (ih _ _ hx2))

theorem firstOccurrences_subset (l : List String) : ∀ x ∈ firstOccurrences l, x ∈ l :=
  firstOccAux_subset l.length l

/-- Check 2 finishes without a `KeyError` whenever every listed id has an
instructor record. -/
theorem checkInstructorAvail_ok (courses : List Course) (instructors : List Instructor) :
    ∀ ids : List String, (∀ iid ∈ ids, ∃ inst ∈ instructors, inst.id = iid) →
      ∃ ws, checkInstructorAvail courses instructors ids = .ok ws := by
  intro ids
  induction ids with
  | nil => exact fun _ => ⟨[], rfl⟩
  | cons iid rest ih =>
    intro h
    obtain ⟨inst, hinst, hid⟩ := h iid (List.mem_cons_self _ _)
    have hfind : (instructors.find? (fun inst => inst.id = iid)).isSome := by
      rw [List.find?_isSome]
      exact ⟨inst, hinst, by simpa using hid⟩
    obtain ⟨inst2, hfind2⟩ := Option.isSome_iff_exists.mp hfind
    obtain ⟨ws, hws⟩ := ih (fun x hx => h x (List.mem_cons_of_mem _ hx))
    have hstep : checkInstructorAvail courses instructors (iid :: rest) =
        (match instructors.find? (fun inst => inst.id = iid) with
         | none => Except.error PyError.keyError
         | some inst =>
           match checkInstructorAvail courses instructors rest with
           | .error e => .error e
           | .ok ws =>
             if qMul (inst.availability.length : ℚ) (qDiv 1 2) <
                 qMul (hoursFor courses iid) 3 then
               .ok (.instructorAvailability inst.name (hoursFor courses iid)
                 (qMul (inst.availability.length : ℚ) (qDiv 1 2))
                 (qMul (hoursFor courses iid) 3) :: ws)
             else .ok ws) := rfl
    rw [hstep, hfind2, hws]
    dsimp only
    by_cases hcmp : qMul (inst2.availability.length : ℚ) (qDiv 1 2) <
        qMul (hoursFor courses iid) 3
    · exact ⟨_, by rw [if_pos hcmp]⟩
    · exact ⟨_, by rw [if_neg hcmp]⟩

/-- Every instructor id referenced by a generated catalog is the id of a
generated instructor record. -/
theorem generated_instructor_coverage (r r2 : Rng) (nc ni : Nat) (hni : 1 ≤ ni) :
    ∀ iid ∈ (generatedCourses nc ni r).map (fun c => c.instructor_id),
      ∃ inst ∈ (generate_instructors ni nc (generatedCourses nc ni r) r2).1,
        inst.id = iid := by
  obtain ⟨hclen, hcspec⟩ := generatedCourses_spec r nc ni hni
  intro iid hiid
  obtain ⟨c, hc, rfl⟩ := List.mem_map.mp hiid
  obtain ⟨i, hilt, hci⟩ := List.mem_iff_getElem.mp hc
  have hi2 : i < nc := by omega
  have hinst_id : c.instructor_id = "PROF" ++ padZero 3 (i % ni) := by
    have := (hcspec i hi2).1
    rw [List.getD_eq_getElem _ _ (by omega)] at this
    rw [← hci]
    exact this
  have hiunfold : generate_instructors ni nc (generatedCourses nc ni r) r2 =
      genInstructorsFrom (generatedCourses nc ni r) 0 ni r2 := rfl
  rw [hiunfold]
  obtain ⟨hilen, hispec⟩ := genInstructorsFrom_ok (generatedCourses nc ni r) ni 0 r2
  have hjlt : i % ni < ni := Nat.mod_lt _ (by omega)
  refine ⟨(genInstructorsFrom (generatedCourses nc ni r) 0 ni r2).1.getD (i % ni)
    dInstructor, getD_mem (by omega) _, ?_⟩
  rw [hinst_id]
  have := (hispec (i % ni) hjlt).1
  simpa using this

/-- A nonempty generated catalog has positive total weekly hours. -/
theorem generated_total_hours_pos (r : Rng) (nc ni : Nat)
    (hnc : 1 ≤ nc) (hni : 1 ≤ ni) :
    0 < qSum ((generatedCourses nc ni r).map (fun c => c.weekly_hours)) := by
  rw [qSum_eq]
  refine List.sum_pos _ ?_ ?_
  · intro x hx
    obtain ⟨c, hc, rfl⟩ := List.mem_map.mp hx
    rcases generated_courses_hours r nc ni hni c hc with h | h <;> rw [h] <;> norm_num
  · have hlen := (generatedCourses_spec r nc ni hni).1
    intro hcon
    rw [List.map_eq_nil_iff] at hcon
    rw [hcon] at hlen
    simp at hlen
    omega

/-- Shared success lemma for classroom generation. -/
theorem generate_classrooms_ok (r : Rng) (nr : Nat) (courses : List Course)
    (hne : courses ≠ []) (hnr : 1 ≤ nr) :
    ∃ rooms rr, generate_classrooms nr courses r = .ok (rooms, rr) ∧
      rooms.length = nr := by
  have hemp : courses.isEmpty = false := by simpa [List.isEmpty_iff] using hne
  have hlen := genClassroomsFrom_len
    (listMaxNat (courses.map (fun c => c.expected_enrollment))) nr 0 r
  have hroomsne : ((genClassroomsFrom
      (listMaxNat (courses.map (fun c => c.expected_enrollment))) 0 nr r).1).isEmpty =
      false := by
    have : (genClassroomsFrom
        (listMaxNat (courses.map (fun c => c.expected_enrollment))) 0 nr r).1 ≠ [] := by
      intro h
      rw [h] at hlen
      simp at hlen
      omega
    simpa [List.isEmpty_iff] using this
  refine ⟨(genClassroomsFrom
      (listMaxNat (courses.map (fun c => c.expected_enrollment))) 0 nr r).1,
    (genClassroomsFrom
      (listMaxNat (courses.map (fun c => c.expected_enrollment))) 0 nr r).2, ?_, hlen⟩
  have hstep : generate_classrooms nr courses r =
      (if ((genClassroomsFrom
          (listMaxNat (courses.map (fun c => c.expected_enrollment))) 0 nr r).1).isEmpty
       then Except.error PyError.indexError
       else Except.ok (genClassroomsFrom
          (listMaxNat (courses.map (fun c => c.expected_enrollment))) 0 nr r)) := by
    unfold generate_classrooms
    rw [hemp]
    rfl
  rw [hstep, hroomsne]
  rfl
/-- The full verifier succeeds whenever the rooms are nonempty, every
referenced instructor id is covered, and the catalog's total hours are
positive; a high utilization ratio lands in the returned warning list. -/
theorem check_feasibility_ok (courses : List Course) (instructors : List Instructor)
    (classrooms : List Classroom) (nw : Nat)
    (hcl : classrooms ≠ [])
    (hcov : ∀ iid ∈ courses.map (fun c => c.instructor_id),
      ∃ inst ∈ instructors, inst.id = iid)
    (hpos : 0 < qSum (courses.map (fun c => c.weekly_hours))) :
    ∃ ws, check_feasibility courses instructors classrooms nw = .ok ws ∧
      (qDiv 1 2 < qDiv (totalRequiredPeriods courses)
          (qMul ((5 * 24 : Nat) : ℚ) (classrooms.length : ℚ)) →
        Warning.utilization (qDiv (totalRequiredPeriods courses)
          (qMul ((5 * 24 : Nat) : ℚ) (classrooms.length : ℚ))) ∈ ws) := by
  have hempf : classrooms.isEmpty = false := by simpa [List.isEmpty_iff] using hcl
  obtain ⟨ws2, hws2⟩ := checkInstructorAvail_ok courses instructors
    (firstOccurrences (courses.map (fun c => c.instructor_id)))
    (fun iid hiid => hcov iid (firstOccurrences_subset _ iid hiid))
  have hS : ¬ (qSum (courses.map (fun c => c.weekly_hours)) = 0) := hpos.ne'
  have hstep : check_feasibility courses instructors classrooms nw =
      (match checkInstructorAvail courses instructors
          (firstOccurrences (courses.map (fun c => c.instructor_id))) with
       | .error e => .error e
       | .ok issues2 =>
         let issues :=
           (courses.filterMap (fun c =>
              if listMaxNat (classrooms.map (fun c => c.capacity)) <
                  c.expected_enrollment then
                some (.roomCapacity c.id c.expected_enrollment
                  (listMaxNat (classrooms.map (fun c => c.capacity))))
              else none)) ++ issues2 ++
           (if qSum (instructors.map (fun inst =>
                  qMul (inst.availability.length : ℚ) (qDiv 1 2))) <
                qMul (qSum (courses.map (fun c => c.weekly_hours))) 3 then
              [.globalRatio (qSum (courses.map (fun c => c.weekly_hours)))
                (qSum (instructors.map (fun inst =>
                  qMul (inst.availability.length : ℚ) (qDiv 1 2))))]
            else []) ++
           (if qDiv 1 2 < qDiv (totalRequiredPeriods courses)
                (qMul ((5 * 24 : Nat) : ℚ) (classrooms.length : ℚ)) then
              [.utilization (qDiv (totalRequiredPeriods courses)
                (qMul ((5 * 24 : Nat) : ℚ) (classrooms.length : ℚ)))]
            else [])
         if issues.isEmpty then
           if qSum (courses.map (fun c => c.weekly_hours)) = 0 then
             Except.error PyError.zeroDivision
           else Except.ok issues
         else Except.ok issues) := by
    unfold check_feasibility
    rw [hempf]
    rfl
  have hresult : ∀ issues : List Warning,
      (if issues.isEmpty = true then
        if qSum (courses.map (fun c => c.weekly_hours)) = 0 then
          Except.error PyError.zeroDivision
        else Except.ok issues
      else Except.ok issues) = Except.ok issues := by
    intro issues
    by_cases hie : issues.isEmpty = true
    · rw [if_pos hie, if_neg hS]
    · rw [if_neg hie]
  rw [hstep, hws2]
  dsimp only
  refine ⟨_, hresult _, ?_⟩
  intro hcond
  rw [if_pos hcond]
  simp
/-- C5: on fully generated entity collections (any positive parameter
counts, any seed streams) the feasibility verifier `_check_feasibility`
returns normally with a list of warnings instead of raising, and whenever
the catalog's total required periods exceed `0.5 * (5*24) * num_rooms` that
list contains a utilization warning whose ratio exceeds 1/2. -/
theorem feasibility_verifier_no_raise (r r2 r3 : Rng) (nc ni nr nw : Nat)
    (hnc : 1 ≤ nc) (hni : 1 ≤ ni) (hnr : 1 ≤ nr) :
    ∃ warnings,
      check_feasibility (generatedCourses nc ni r)
        (generate_instructors ni nc (generatedCourses nc ni r) r2).1
        (exVal (generate_classrooms nr (generatedCourses nc ni r) r3)).1 nw =
          .ok warnings ∧
      ((1 : ℚ) / 2 * (5 * 24) * nr < totalRequiredPeriods (generatedCourses nc ni r) →
        ∃ u, (1 : ℚ) / 2 < u ∧ Warning.utilization u ∈ warnings) := by
  have hne : generatedCourses nc ni r ≠ [] := by
    have hlen := (generatedCourses_spec r nc ni hni).1
    intro h
    rw [h] at hlen
    simp at hlen
    omega
  obtain ⟨rooms, rr, hcr, hrlen⟩ :=
    generate_classrooms_ok r3 nr (generatedCourses nc ni r) hne hnr
  have hev : (exVal (generate_classrooms nr (generatedCourses nc ni r) r3)).1 = rooms := by
    rw [hcr]
    rfl
  rw [hev]
  obtain ⟨ws, hws, hutil⟩ := check_feasibility_ok (generatedCourses nc ni r)
    (generate_instructors ni nc (generatedCourses nc ni r) r2).1 rooms nw
    (by intro h; rw [h] at hrlen; simp at hrlen; omega)
    (generated_instructor_coverage r r2 nc ni hni)
    (generated_total_hours_pos r nc ni hnc hni)
  refine ⟨ws, hws, ?_⟩
  intro hcond
  have hnrq : (0 : ℚ) < (nr : ℚ) := by
    exact_mod_cast Nat.lt_of_lt_of_le Nat.zero_lt_one hnr
  have hd : (0 : ℚ) < ((5 * 24 : Nat) : ℚ) * ((rooms.length : ℚ)) := by
    rw [hrlen]
    push_cast
    linarith
  have hq : qDiv 1 2 < qDiv (totalRequiredPeriods (generatedCourses nc ni r))
      (qMul ((5 * 24 : Nat) : ℚ) ((rooms.length : ℚ))) := by
    rw [qDiv_eq, qDiv_eq, qMul_eq, lt_div_iff₀ hd, hrlen]
    push_cast
    linarith
  refine ⟨_, ?_, hutil hq⟩
  rw [← qDiv_eq]
  exact hq

/-- C5 witness: the theorem at `nc = ni = nr = nw = 1` on the all-zero
stream. -/
theorem feasibility_verifier_no_raise_witness :
    (1 : Nat) ≤ 1 ∧
      ∃ warnings,
        check_feasibility (generatedCourses 1 1 rng0)
          (generate_instructors 1 1 (generatedCourses 1 1 rng0) rng0).1
          (exVal (generate_classrooms 1 (generatedCourses 1 1 rng0) rng0)).1 1 =
            .ok warnings ∧
        ((1 : ℚ) / 2 * (5 * 24) * ((1 : Nat) : ℚ) <
            totalRequiredPeriods (generatedCourses 1 1 rng0) →
          ∃ u, (1 : ℚ) / 2 < u ∧ Warning.utilization u ∈ warnings) :=
  ⟨by decide, feasibility_verifier_no_raise rng0 rng0 rng0 1 1 1 1 (by decide) (by decide)
    (by decide)⟩
/-! ## The assembled document -/

/-- C10: every assembled instance document carries
`metadata.feasibility_checked = true` (the flag is set unconditionally,
warnings or not), and every emitted instructor record has its transient
debug field stripped. -/
theorem feasibility_flag_and_debug_stripped (nc ni nr ns nw : Nat) (now : String)
    (r : Rng) (doc : InputData)
    (h : generate_complete_input nc ni nr ns nw now r = .ok doc) :
    doc.metadata.feasibility_checked = true ∧
      ∀ inst ∈ doc.instructors, inst.debug = none := by
  unfold generate_complete_input at h
  cases hgc : generate_courses nc ni r with
  | error e => rw [hgc] at h; exact absurd h (by simp)
  | ok p =>
    obtain ⟨courses, r1⟩ := p
    rw [hgc] at h
    dsimp only at h
    cases hcl : generate_classrooms nr courses
        (generate_instructors ni nc courses r1).2 with
    | error e => rw [hcl] at h; exact absurd h (by simp)
    | ok q =>
      obtain ⟨classrooms, r3⟩ := q
      rw [hcl] at h
      dsimp only at h
      cases hcf : check_feasibility courses
          (generate_instructors ni nc courses r1).1 classrooms nw with
      | error e => rw [hcf] at h; exact absurd h (by simp)
      | ok ws =>
        rw [hcf] at h
        dsimp only at h
        by_cases hns : ns = 0
        · rw [if_pos hns] at h
          exact absurd h (by simp)
        · rw [if_neg hns] at h
          rw [Except.ok.injEq] at h
          subst h
          refine ⟨rfl, ?_⟩
          intro inst hinst
          obtain ⟨x, hx, rfl⟩ := List.mem_map.mp hinst
          rfl

/-- C10 witness: the concrete assembled document at all-one parameters on
the all-zero stream. -/
theorem feasibility_flag_and_debug_stripped_witness :
    generate_complete_input 1 1 1 1 1 "2025-01-06T00:00:00" rng0 =
      .ok (exVal (generate_complete_input 1 1 1 1 1 "2025-01-06T00:00:00" rng0)) ∧
    ((exVal (generate_complete_input 1 1 1 1 1 "2025-01-06T00:00:00"
        rng0)).metadata.feasibility_checked = true ∧
      ∀ inst ∈ (exVal (generate_complete_input 1 1 1 1 1 "2025-01-06T00:00:00"
        rng0)).instructors, inst.debug = none) :=
  ⟨by rfl,
    feasibility_flag_and_debug_stripped 1 1 1 1 1 "2025-01-06T00:00:00" rng0 _
      (by rfl)⟩
/-! ## Seed determinism and the wall-clock stamp -/

/-- C1 counterexample: the document depends on the wall-clock reading
`datetime.now().isoformat()` as well as on the seed, so two runs with the
same seed and parameters at different instants differ in the metadata
block. -/
theorem seed_determinism_fails :
    generate_complete_input 1 1 1 1 1 "2025-01-06T00:00:00" rng0 ≠
      generate_complete_input 1 1 1 1 1 "2025-01-06T00:00:01" rng0 := by
  intro h
  exact absurd (congrArg (fun x => (exVal x).metadata.generated_at) h) (by decide)

/-- C1 amended: the generation pipeline is deterministic in the seed
stream and parameters; its only environmental input is the wall-clock
stamp, so two runs with the same seed and parameters agree once
`metadata.generated_at` is overridden with a common value. -/
theorem seed_determinism_modulo_timestamp (nc ni nr ns nw : Nat)
    (now1 now2 t : String) (r : Rng) :
    (generate_complete_input nc ni nr ns nw now1 r).map
        (fun d => withGeneratedAt d t) =
      (generate_complete_input nc ni nr ns nw now2 r).map
        (fun d => withGeneratedAt d t) := by
  unfold generate_complete_input
  cases generate_courses nc ni r with
  | error e => rfl
  | ok p =>
    obtain ⟨courses, r1⟩ := p
    dsimp only
    cases generate_classrooms nr courses
        (generate_instructors ni nc courses r1).2 with
    | error e => rfl
    | ok q =>
      obtain ⟨classrooms, r3⟩ := q
      dsimp only
      cases check_feasibility courses
          (generate_instructors ni nc courses r1).1 classrooms nw with
      | error e => rfl
      | ok ws =>
        dsimp only
        by_cases hns : ns = 0
        · rw [if_pos hns, if_pos hns]
        · rw [if_neg hns, if_neg hns]
          rfl
